import Mathlib

/-!
AES image encryption, host tools.

A shallow embedding of `src/host/tools/helper_functions.c` (multiplication in
GF(2^8) and of 4-byte words) and of `src/host/tools/bitmap.c` (loading and
storing of bitmap files), with the properties of the specification proved
about the embedding.

Bytes (`unsigned char`) are natural numbers below 256; `short` and `int` are
integers, decoded from and encoded to little-endian two's complement bytes.
-/

/-! ## helper_functions.c -/

/-- The local variables of `gmult` that the loop updates. -/
structure GmultState where
  p : Nat
  a : Nat
  b : Nat
  deriving DecidableEq, Repr

/-- One pass through the body of the `for` loop of `gmult`. -/
def gmultBody (s : GmultState) : GmultState :=
  let p := if s.b &&& 1 ≠ 0 then s.p ^^^ s.a else s.p
  let hbs := s.a &&& 0x80
  let a := (s.a <<< 1) % 256
  let a := if hbs ≠ 0 then a ^^^ 0x1b else a
  let b := s.b >>> 1
  { p := p, a := a, b := b }

/-- The loop of `gmult` run for `n` passes. -/
def gmultLoop : Nat → GmultState → GmultState
  | 0, s => s
  | n + 1, s => gmultLoop n (gmultBody s)

/-- Multiplication in GF(2^8): `for (i = 0; i < 8; i++)` runs the body eight
times from `p = 0`, and `p` is returned. -/
def gmult (a b : Nat) : Nat := (gmultLoop 8 { p := 0, a := a, b := b }).p

/-- Multiplication of 4-byte words: `d[0]`, ..., `d[3]` as assigned by
`coef_mult(a, b, d)`, the output `d` being distinct from `a` and `b`. -/
def coef_mult (a b : Fin 4 → Nat) : Fin 4 → Nat :=
  ![gmult (a 0) (b 0) ^^^ gmult (a 3) (b 1) ^^^ gmult (a 2) (b 2) ^^^ gmult (a 1) (b 3),
    gmult (a 1) (b 0) ^^^ gmult (a 0) (b 1) ^^^ gmult (a 3) (b 2) ^^^ gmult (a 2) (b 3),
    gmult (a 2) (b 0) ^^^ gmult (a 1) (b 1) ^^^ gmult (a 0) (b 2) ^^^ gmult (a 3) (b 3),
    gmult (a 3) (b 0) ^^^ gmult (a 2) (b 1) ^^^ gmult (a 1) (b 2) ^^^ gmult (a 0) (b 3)]

/-! ### Reference arithmetic, as the specification words it -/

/-- A map on naturals that commutes with bitwise exclusive or. -/
def XorLinear (f : Nat → Nat) : Prop := ∀ x y, f (x ^^^ y) = f x ^^^ f y

/-- Multiplication by `x` in the field: one shift with conditional reduction. -/
def xtime (a : Nat) : Nat := ((a <<< 1) % 256) ^^^ (if a.testBit 7 then 0x1b else 0)

/-- Exclusive-or sum of the first `n` terms of a sequence. -/
def xorSum : Nat → (Nat → Nat) → Nat
  | 0, _ => 0
  | n + 1, t => xorSum n t ^^^ t n

/-- Carry-less product of `a` by the byte `b`: the product of the two as
polynomials over GF(2), bit `i` being the coefficient of `x^i`. -/
def clmul (a b : Nat) : Nat := xorSum 8 (fun i => if b.testBit i then a <<< i else 0)

/-- Long division by the polynomial `m` of degree 8: cancels the
coefficients of `x^(i+7)`, ..., `x^8`, highest first. -/
def polyModAux (m : Nat) : Nat → Nat → Nat
  | 0, r => r
  | i + 1, r => polyModAux m i (if r.testBit (i + 8) then r ^^^ (m <<< i) else r)

/-- Remainder modulo `x^8+x^4+x^3+x+1` of a polynomial of degree below 16. -/
def polyMod11B (x : Nat) : Nat := polyModAux 0x11B 8 x

/-- Reference product in GF(2^8): the carry-less product reduced modulo
`x^8+x^4+x^3+x+1`. -/
def gf256Mul (a b : Nat) : Nat := polyMod11B (clmul a b)

/-- Exclusive-or sum of four terms. -/
def xorSum4 (t : Fin 4 → Nat) : Nat := t 0 ^^^ t 1 ^^^ t 2 ^^^ t 3

/-- Coefficient of `x^k` in the product of the polynomials
`a0 + a1 x + a2 x^2 + a3 x^3` and `b0 + b1 x + b2 x^2 + b3 x^3` over GF(2^8). -/
def polyMulCoeff (a b : Fin 4 → Nat) (k : Nat) : Nat :=
  xorSum4 fun i => xorSum4 fun j => if i.val + j.val = k then gf256Mul (a i) (b j) else 0

/-- Remainder modulo `x^4 + 1` of a polynomial of degree below 8, given by
its coefficients: `x^(i+4)` is congruent to `x^i`. -/
def modX4Plus1 (c : Nat → Nat) : Fin 4 → Nat := fun i => c i.val ^^^ c (i.val + 4)

/-- Reference product of 4-byte words: the product of the two polynomials
over GF(2^8), reduced modulo `x^4 + 1`. -/
def wordMulRef (a b : Fin 4 → Nat) : Fin 4 → Nat := modX4Plus1 (polyMulCoeff a b)

/-- Cyclic convolution: entry `i` is the exclusive or over `j` of
`gmult(a[(i - j) mod 4], b[j])`, the index computed as `(i + 4 - j) % 4`. -/
def cyclicConv (a b : Fin 4 → Nat) : Fin 4 → Nat :=
  fun i => xorSum4 fun j =>
    gmult (a ⟨(i.val + 4 - j.val) % 4, Nat.mod_lt _ (by decide)⟩) (b j)

/-! ## bitmap.c -/

/-- Value of a little-endian sequence of bytes read from memory. -/
def leValue : List Nat → Nat
  | [] => 0
  | b :: bs => b % 256 + 256 * leValue bs

/-- Two's complement reading of an unsigned value of `w` bits. -/
def toSigned (w : Nat) (u : Nat) : Int :=
  if u < 2 ^ (w - 1) then (u : Int) else (u : Int) - 2 ^ w

/-- The `n` low bytes of `u`, least significant first. -/
def leBytes : Nat → Nat → List Nat
  | 0, _ => []
  | n + 1, u => u % 256 :: leBytes n (u / 256)

/-- A `WORD` (`short`) read from the first two bytes. -/
def decodeWORD (bs : List Nat) : Int := toSigned 16 (leValue (bs.take 2))

/-- A `DWORD` or `LONG` (`int`) read from the first four bytes. -/
def decodeDWORD (bs : List Nat) : Int := toSigned 32 (leValue (bs.take 4))

/-- The two bytes of a `WORD`. -/
def encodeWORD (v : Int) : List Nat := leBytes 2 (v % 2 ^ 16).toNat

/-- The four bytes of a `DWORD` or `LONG`. -/
def encodeDWORD (v : Int) : List Nat := leBytes 4 (v % 2 ^ 32).toNat

/-- The packed record `tagBITMAPFILEHEADER` (14 bytes). -/
structure BITMAPFILEHEADER where
  bfType : Int
  bfSize : Int
  bfReserved1 : Int
  bfReserved2 : Int
  bOffBits : Int
  deriving DecidableEq, Repr

/-- The packed record `tagBITMAPINFOHEADER` (40 bytes). -/
structure BITMAPINFOHEADER where
  biSize : Int
  biWidth : Int
  biHeight : Int
  biPlanes : Int
  biBitCount : Int
  biCompression : Int
  biSizeImage : Int
  biXPelsPerMeter : Int
  biYPelsPerMeter : Int
  biClrUsed : Int
  biClrImportant : Int
  deriving DecidableEq, Repr

/-- Memory image of a file header: the fields in declaration order, packed. -/
def encodeFileHeader (h : BITMAPFILEHEADER) : List Nat :=
  encodeWORD h.bfType ++ encodeDWORD h.bfSize ++ encodeWORD h.bfReserved1 ++
    encodeWORD h.bfReserved2 ++ encodeDWORD h.bOffBits

/-- The file header held by a memory image of 14 bytes. -/
def decodeFileHeader (bs : List Nat) : BITMAPFILEHEADER :=
  { bfType := decodeWORD bs
    bfSize := decodeDWORD (bs.drop 2)
    bfReserved1 := decodeWORD (bs.drop 6)
    bfReserved2 := decodeWORD (bs.drop 8)
    bOffBits := decodeDWORD (bs.drop 10) }

/-- Memory image of an info header: the fields in declaration order, packed. -/
def encodeInfoHeader (h : BITMAPINFOHEADER) : List Nat :=
  encodeDWORD h.biSize ++ encodeDWORD h.biWidth ++ encodeDWORD h.biHeight ++
    encodeWORD h.biPlanes ++ encodeWORD h.biBitCount ++ encodeDWORD h.biCompression ++
    encodeDWORD h.biSizeImage ++ encodeDWORD h.biXPelsPerMeter ++
    encodeDWORD h.biYPelsPerMeter ++ encodeDWORD h.biClrUsed ++ encodeDWORD h.biClrImportant

/-- The info header held by a memory image of 40 bytes. -/
def decodeInfoHeader (bs : List Nat) : BITMAPINFOHEADER :=
  { biSize := decodeDWORD bs
    biWidth := decodeDWORD (bs.drop 4)
    biHeight := decodeDWORD (bs.drop 8)
    biPlanes := decodeWORD (bs.drop 12)
    biBitCount := decodeWORD (bs.drop 14)
    biCompression := decodeDWORD (bs.drop 16)
    biSizeImage := decodeDWORD (bs.drop 20)
    biXPelsPerMeter := decodeDWORD (bs.drop 24)
    biYPelsPerMeter := decodeDWORD (bs.drop 28)
    biClrUsed := decodeDWORD (bs.drop 32)
    biClrImportant := decodeDWORD (bs.drop 36) }

/-- A sequence of bytes: every element is below 256. -/
def IsBytes (bs : List Nat) : Prop := ∀ x ∈ bs, x < 256

/-- An open stream: the bytes of the file and the current position. -/
structure FILE where
  content : List Nat
  pos : Nat
  deriving DecidableEq, Repr

/-- What the call finds around it: the file that `fopen(filename, "rb")`
opens (`none` when it cannot be opened), whether `fopen(filename, "wb")`
succeeds, whether `malloc` of a given size succeeds, and the indeterminate
bytes a fresh block holds. -/
structure Host where
  fopenRead : Option (List Nat)
  fopenWrite : Bool
  malloc : Nat → Bool
  heap : Nat → Nat

/-- Calls to the C library, in the order they are made. -/
inductive Event where
  | fopen (ok : Bool)
  | printf
  | fread (requested got : Nat)
  | fseek (offset : Int)
  | malloc (size : Nat) (ok : Bool)
  | free
  | fwrite (size : Nat)
  | fclose
  deriving DecidableEq, Repr

/-- Ways a call ends other than by returning. -/
inductive Halt where
  | exit (status : Nat)
  | outOfBounds (index size : Nat)
  | intOverflow
  | fuel
  deriving DecidableEq, Repr

/-- Bytes transferred by `fread` of `n` bytes: as many as the file still has. -/
def freadBytes (n : Nat) (fp : FILE) : List Nat := (fp.content.drop fp.pos).take n

/-- Memory after `fread` of `n` bytes into a region holding `mem`: the bytes
transferred overwrite the start of the region, the rest keeps its contents. -/
def freadMem (mem : List Nat) (n : Nat) (fp : FILE) : List Nat :=
  freadBytes n fp ++ mem.drop (freadBytes n fp).length

/-- The stream after `fread` of `n` bytes. -/
def freadFile (n : Nat) (fp : FILE) : FILE :=
  { fp with pos := fp.pos + (freadBytes n fp).length }

/-- The stream after `fseek(fp, offset, SEEK_SET)`: a negative offset is
refused and leaves the position unchanged. -/
def fseek (fp : FILE) (offset : Int) : FILE :=
  if offset < 0 then fp else { fp with pos := offset.toNat }

/-- Conversion of an `int` to `size_t` (64 bits). -/
def toSizeT (n : Int) : Nat := (n % 2 ^ 64).toNat

/-- A fresh block of `n` bytes with indeterminate contents. -/
def freshBlock (heap : Nat → Nat) (n : Nat) : List Nat :=
  (List.range n).map fun i => heap i % 256

/-- Largest value of an `int`. -/
def INT_MAX : Nat := 2147483647

/-- The variables of the channel-swap loop, and the number of passes made. -/
structure SwapState where
  imageIdx : Nat
  bitmapImage : List Nat
  iterations : Nat
  deriving DecidableEq, Repr

/-- The loop `for (imageIdx = 0; imageIdx < biSizeImage; imageIdx += 3)` that
exchanges `bitmapImage[imageIdx]` and `bitmapImage[imageIdx + 2]`, the same in
`LoadBitmapFile` and `ReloadBitmapFile`. An access outside the block and an
overflow of `imageIdx` end the run. -/
def swapLoop (biSizeImage : Int) : Nat → SwapState → Except Halt SwapState
  | 0, s => if (s.imageIdx : Int) < biSizeImage then .error .fuel else .ok s
  | fuel + 1, s =>
    if (s.imageIdx : Int) < biSizeImage then
      if INT_MAX < s.imageIdx + 2 then .error .intOverflow
      else
        match s.bitmapImage[s.imageIdx]?, s.bitmapImage[s.imageIdx + 2]? with
        | none, _ => .error (.outOfBounds s.imageIdx s.bitmapImage.length)
        | some _, none => .error (.outOfBounds (s.imageIdx + 2) s.bitmapImage.length)
        | some rgb_swap, some third =>
          if INT_MAX < s.imageIdx + 3 then .error .intOverflow
          else
            swapLoop biSizeImage fuel
              { imageIdx := s.imageIdx + 3
                bitmapImage := (s.bitmapImage.set s.imageIdx third).set (s.imageIdx + 2) rgb_swap
                iterations := s.iterations + 1 }
    else .ok s

/-- The swap loop from `imageIdx = 0`; one unit of fuel per byte is more than
the passes it can make. -/
def swapChannels (biSizeImage : Int) (bitmapImage : List Nat) : Except Halt SwapState :=
  swapLoop biSizeImage biSizeImage.toNat
    { imageIdx := 0, bitmapImage := bitmapImage, iterations := 0 }

/-- What `LoadBitmapFile` leaves: the pointer returned (`none` for `NULL`,
otherwise the block it points to), the caller's two records, the library
calls made and the number of passes of the swap loop. -/
structure LoadResult where
  ret : Option (List Nat)
  bitmapInfoHeader : BITMAPINFOHEADER
  bitmapFileHeader : BITMAPFILEHEADER
  trace : List Event
  swapIterations : Nat
  deriving DecidableEq, Repr

/-- Embedding of `LoadBitmapFile(filename, bitmapInfoHeader, bitmapFileHeader)`;
the two records arrive with the values the caller left in them. -/
def LoadBitmapFile (host : Host) (bitmapInfoHeader : BITMAPINFOHEADER)
    (bitmapFileHeader : BITMAPFILEHEADER) : Except Halt LoadResult :=
  match host.fopenRead with
  | none =>
    .ok { ret := none, bitmapInfoHeader := bitmapInfoHeader,
          bitmapFileHeader := bitmapFileHeader,
          trace := [.fopen false, .printf], swapIterations := 0 }
  | some content =>
    let fp0 : FILE := { content := content, pos := 0 }
    let fileHeader := decodeFileHeader (freadMem (encodeFileHeader bitmapFileHeader) 14 fp0)
    let t1 : List Event := [.fopen true, .fread 14 (freadBytes 14 fp0).length]
    let fp1 := freadFile 14 fp0
    if fileHeader.bfType ≠ 0x4D42 then
      .ok { ret := none, bitmapInfoHeader := bitmapInfoHeader,
            bitmapFileHeader := fileHeader,
            trace := t1 ++ [.fclose], swapIterations := 0 }
    else
      let infoHeader := decodeInfoHeader (freadMem (encodeInfoHeader bitmapInfoHeader) 40 fp1)
      let t2 := t1 ++ [.fread 40 (freadBytes 40 fp1).length]
      let fp2 := freadFile 40 fp1
      let fp3 := fseek fp2 fileHeader.bOffBits
      let size := toSizeT infoHeader.biSizeImage
      let t3 := t2 ++ [.fseek fileHeader.bOffBits, .malloc size (host.malloc size)]
      let allocated : Option (List Nat) :=
        if host.malloc size then some (freshBlock host.heap size) else none
      match allocated with
      | none =>
        .ok { ret := none, bitmapInfoHeader := infoHeader, bitmapFileHeader := fileHeader,
              trace := t3 ++ [.free, .fclose], swapIterations := 0 }
      | some block =>
        let t4 := t3 ++ [.fread size (freadBytes size fp3).length]
        let bitmapImage : Option (List Nat) := some (freadMem block size fp3)
        match bitmapImage with
        | none =>
          .ok { ret := none, bitmapInfoHeader := infoHeader, bitmapFileHeader := fileHeader,
                trace := t4 ++ [.fclose], swapIterations := 0 }
        | some image =>
          match swapChannels infoHeader.biSizeImage image with
          | .error e => .error e
          | .ok s =>
            .ok { ret := some s.bitmapImage, bitmapInfoHeader := infoHeader,
                  bitmapFileHeader := fileHeader,
                  trace := t4 ++ [.fclose], swapIterations := s.iterations }

/-- What `ReloadBitmapFile` leaves: the caller's block, the bytes of the file
written, and the library calls made. -/
structure ReloadResult where
  bitmapImage : List Nat
  written : List Nat
  trace : List Event
  deriving DecidableEq, Repr

/-- Embedding of `ReloadBitmapFile(filename, bitmapImage, bitmapFileHeader,
bitmapInfoHeader)`; `bitmapImage` is the block the pointer refers to. -/
def ReloadBitmapFile (host : Host) (bitmapImage : List Nat)
    (bitmapFileHeader : BITMAPFILEHEADER) (bitmapInfoHeader : BITMAPINFOHEADER) :
    Except Halt ReloadResult :=
  if host.fopenWrite = false then .error (.exit 1)
  else
    let out1 := encodeFileHeader bitmapFileHeader
    let out2 := out1 ++ encodeInfoHeader bitmapInfoHeader
    match swapChannels bitmapInfoHeader.biSizeImage bitmapImage with
    | .error e => .error e
    | .ok s =>
      let size := toSizeT bitmapInfoHeader.biSizeImage
      if s.bitmapImage.length < size then .error (.outOfBounds s.bitmapImage.length s.bitmapImage.length)
      else
        .ok { bitmapImage := s.bitmapImage
              written := out2 ++ s.bitmapImage.take size
              trace := [.fopen true, .fwrite 14, .fwrite 40, .fwrite size, .fclose] }

/-- Streams opened and not yet closed at the end of a sequence of calls. -/
def openHandles : List Event → Int
  | [] => 0
  | .fopen true :: t => openHandles t + 1
  | .fclose :: t => openHandles t - 1
  | _ :: t => openHandles t

/-- Calls to `malloc` in a sequence of calls. -/
def mallocCalls : List Event → Nat
  | [] => 0
  | .malloc _ _ :: t => mallocCalls t + 1
  | _ :: t => mallocCalls t

/-- Calls to `fread` in a sequence of calls. -/
def freadCalls : List Event → Nat
  | [] => 0
  | .fread _ _ :: t => freadCalls t + 1
  | _ :: t => freadCalls t

/-- Exchange of the first and third byte of every complete triplet. -/
def swapTriples : List Nat → List Nat
  | x :: y :: z :: rest => z :: y :: x :: swapTriples rest
  | [x, y] => [x, y]
  | [x] => [x]
  | [] => []

/-- Bytes of one row of a 24-bit image: three per pixel, rounded up to a
multiple of four. -/
def rowSize24 (width : Int) : Int := (24 * width + 31) / 32 * 4

/-- A valid 24-bit uncompressed bitmap file, by the data model of the
specification and the row layout of the format: the tag, a total size equal
to the length, reserved fields zero, one plane, 24 bits per pixel, no
compression, an image size of `|biHeight|` padded rows, an optional colour
table of `biClrUsed` entries between the headers and the pixels, and the
pixels up to the end of the file. -/
def ValidBmp24 (f : List Nat) : Prop :=
  IsBytes f ∧ 54 ≤ f.length ∧
  (decodeFileHeader (f.take 14)).bfType = 0x4D42 ∧
  (decodeFileHeader (f.take 14)).bfSize = f.length ∧
  (decodeFileHeader (f.take 14)).bfReserved1 = 0 ∧
  (decodeFileHeader (f.take 14)).bfReserved2 = 0 ∧
  (decodeInfoHeader ((f.drop 14).take 40)).biSize = 40 ∧
  0 < (decodeInfoHeader ((f.drop 14).take 40)).biWidth ∧
  (decodeInfoHeader ((f.drop 14).take 40)).biHeight ≠ 0 ∧
  (decodeInfoHeader ((f.drop 14).take 40)).biPlanes = 1 ∧
  (decodeInfoHeader ((f.drop 14).take 40)).biBitCount = 24 ∧
  (decodeInfoHeader ((f.drop 14).take 40)).biCompression = 0 ∧
  (decodeInfoHeader ((f.drop 14).take 40)).biSizeImage =
    rowSize24 (decodeInfoHeader ((f.drop 14).take 40)).biWidth *
      |(decodeInfoHeader ((f.drop 14).take 40)).biHeight| ∧
  0 ≤ (decodeInfoHeader ((f.drop 14).take 40)).biClrUsed ∧
  (decodeFileHeader (f.take 14)).bOffBits =
    54 + 4 * (decodeInfoHeader ((f.drop 14).take 40)).biClrUsed ∧
  (f.length : Int) = (decodeFileHeader (f.take 14)).bOffBits +
    (decodeInfoHeader ((f.drop 14).take 40)).biSizeImage

instance (f : List Nat) : Decidable (IsBytes f) := by
  unfold IsBytes
  infer_instance

instance (f : List Nat) : Decidable (ValidBmp24 f) := by
  unfold ValidBmp24
  infer_instance

/-- A 4 by 1 image of 24 bits whose pixels follow the headers directly
(66 bytes). -/
def plainFile : List Nat :=
  [0x42, 0x4D, 66, 0, 0, 0, 0, 0, 0, 0, 54, 0, 0, 0,
   40, 0, 0, 0, 4, 0, 0, 0, 1, 0, 0, 0, 1, 0, 24, 0, 0, 0, 0, 0, 12, 0, 0, 0,
   0, 0, 0, 0, 0, 0, 0, 0, 0, 0, 0, 0, 0, 0, 0, 0,
   1, 2, 3, 4, 5, 6, 7, 8, 9, 10, 11, 12]

/-- The same image with a colour table of one entry between the headers and
the pixels, so that `bOffBits` is 58 (70 bytes). -/
def tableFile : List Nat :=
  [0x42, 0x4D, 70, 0, 0, 0, 0, 0, 0, 0, 58, 0, 0, 0,
   40, 0, 0, 0, 4, 0, 0, 0, 1, 0, 0, 0, 1, 0, 24, 0, 0, 0, 0, 0, 12, 0, 0, 0,
   0, 0, 0, 0, 0, 0, 0, 0, 1, 0, 0, 0, 0, 0, 0, 0,
   0, 0, 0, 0,
   1, 2, 3, 4, 5, 6, 7, 8, 9, 10, 11, 12]

/-- A file that is not a bitmap. -/
def textFile : List Nat := [0x50, 0x36, 0x0A, 0x31, 0x20, 0x31]

/-- A bitmap file of the two headers alone, announcing no pixel data. -/
def emptyImageFile : List Nat :=
  [0x42, 0x4D, 54, 0, 0, 0, 0, 0, 0, 0, 54, 0, 0, 0,
   40, 0, 0, 0, 0, 0, 0, 0, 0, 0, 0, 0, 1, 0, 24, 0, 0, 0, 0, 0, 0, 0, 0, 0,
   0, 0, 0, 0, 0, 0, 0, 0, 0, 0, 0, 0, 0, 0, 0, 0]

/-- A host where the file to read holds `content`, the destination opens and
every allocation succeeds, fresh blocks holding the byte `0xAA`. -/
def hostWith (content : List Nat) : Host :=
  { fopenRead := some content, fopenWrite := true, malloc := fun _ => true,
    heap := fun _ => 0xAA }

/-- A host where the file to read cannot be opened. -/
def hostNoFile : Host :=
  { fopenRead := none, fopenWrite := true, malloc := fun _ => true, heap := fun _ => 0xAA }

/-- A file header record with every field zero. -/
def zeroFileHeader : BITMAPFILEHEADER :=
  { bfType := 0, bfSize := 0, bfReserved1 := 0, bfReserved2 := 0, bOffBits := 0 }

/-- An info header record with every field zero. -/
def zeroInfoHeader : BITMAPINFOHEADER :=
  { biSize := 0, biWidth := 0, biHeight := 0, biPlanes := 0, biBitCount := 0,
    biCompression := 0, biSizeImage := 0, biXPelsPerMeter := 0, biYPelsPerMeter := 0,
    biClrUsed := 0, biClrImportant := 0 }

/-- The bytes written when `LoadBitmapFile` is followed at once by
`ReloadBitmapFile` with the buffer returned and the two records populated;
`none` when the load returns `NULL` or either call does not return. -/
def loadThenReload (host : Host) (bitmapInfoHeader : BITMAPINFOHEADER)
    (bitmapFileHeader : BITMAPFILEHEADER) : Option (List Nat) :=
  match LoadBitmapFile host bitmapInfoHeader bitmapFileHeader with
  | .error _ => none
  | .ok r =>
    match r.ret with
    | none => none
    | some bitmapImage =>
      match ReloadBitmapFile host bitmapImage r.bitmapFileHeader r.bitmapInfoHeader with
      | .error _ => none
      | .ok w => some w.written

/-- Table of the multiplicative inverses of the bytes in GF(2^8), with 0 for
the byte 0. -/
def invTable : List Nat :=
  [0, 1, 141, 246, 203, 82, 123, 209, 232, 79, 41, 192, 176, 225, 229, 199,
   116, 180, 170, 75, 153, 43, 96, 95, 88, 63, 253, 204, 255, 64, 238, 178,
   58, 110, 90, 241, 85, 77, 168, 201, 193, 10, 152, 21, 48, 68, 162, 194,
   44, 69, 146, 108, 243, 57, 102, 66, 242, 53, 32, 111, 119, 187, 89, 25,
   29, 254, 55, 103, 45, 49, 245, 105, 167, 100, 171, 19, 84, 37, 233, 9,
   237, 92, 5, 202, 76, 36, 135, 191, 24, 62, 34, 240, 81, 236, 97, 23,
   22, 94, 175, 211, 73, 166, 54, 67, 244, 71, 145, 223, 51, 147, 33, 59,
   121, 183, 151, 133, 16, 181, 186, 60, 182, 112, 208, 6, 161, 250, 129, 130,
   131, 126, 127, 128, 150, 115, 190, 86, 155, 158, 149, 217, 247, 2, 185, 164,
   222, 106, 50, 109, 216, 138, 132, 114, 42, 20, 159, 136, 249, 220, 137, 154,
   251, 124, 46, 195, 143, 184, 101, 72, 38, 200, 18, 74, 206, 231, 210, 98,
   12, 224, 31, 239, 17, 117, 120, 113, 165, 142, 118, 61, 189, 188, 134, 87,
   11, 40, 47, 163, 218, 212, 228, 15, 169, 39, 83, 4, 27, 252, 172, 230,
   122, 7, 174, 99, 197, 219, 226, 234, 148, 139, 196, 213, 157, 248, 144, 107,
   177, 13, 214, 235, 198, 14, 207, 173, 8, 78, 215, 227, 93, 80, 30, 179,
   91, 35, 56, 52, 104, 70, 3, 140, 221, 156, 125, 160, 205, 26, 65, 28]

/-- Entry of the table of inverses for the byte `a`. -/
def ginv (a : Nat) : Nat := invTable.getD a 0

/-- The word of `MixColumns`, `a(x) = {03}x^3 + {01}x^2 + {01}x + {02}`. -/
def mixWord : Fin 4 → Nat := ![0x02, 0x01, 0x01, 0x03]

/-- The word of `InvMixColumns`, `{0b}x^3 + {0d}x^2 + {09}x + {0e}`. -/
def invMixWord : Fin 4 → Nat := ![0x0e, 0x09, 0x0d, 0x0b]

/-- Indices the swap loop reads and writes, pass by pass: `imageIdx` and
`imageIdx + 2` for as long as `imageIdx < biSizeImage`, whatever the block
holds. -/
def swapIndices (biSizeImage : Int) : Nat → Nat → List Nat
  | 0, _ => []
  | fuel + 1, imageIdx =>
    if (imageIdx : Int) < biSizeImage then
      imageIdx :: (imageIdx + 2) :: swapIndices biSizeImage fuel (imageIdx + 3)
    else []

/-- The indices touched by the swap loop run from `imageIdx = 0`. -/
def swapAccesses (biSizeImage : Int) : List Nat :=
  swapIndices biSizeImage biSizeImage.toNat 0

/-- Blocks obtained from `malloc` in a sequence of calls. -/
def blocksAllocated : List Event → Nat
  | [] => 0
  | .malloc _ true :: t => blocksAllocated t + 1
  | _ :: t => blocksAllocated t

/-- A bitmap file that announces 12 bytes of pixels at offset 54 and holds
only 7 of them (61 bytes). -/
def shortFile : List Nat :=
  [0x42, 0x4D, 66, 0, 0, 0, 0, 0, 0, 0, 54, 0, 0, 0,
   40, 0, 0, 0, 4, 0, 0, 0, 1, 0, 0, 0, 1, 0, 24, 0, 0, 0, 0, 0, 12, 0, 0, 0,
   0, 0, 0, 0, 0, 0, 0, 0, 0, 0, 0, 0, 0, 0, 0, 0,
   1, 2, 3, 4, 5, 6, 7]

/-- A host where the file to read holds `content` and no allocation succeeds. -/
def hostNoMemory (content : List Nat) : Host :=
  { fopenRead := some content, fopenWrite := true, malloc := fun _ => false,
    heap := fun _ => 0xAA }

/-! ## Exclusive or and bits -/

theorem and_two_pow_ne_zero (x k : Nat) : (x &&& 2 ^ k ≠ 0) ↔ x.testBit k = true := by
  constructor
  · intro h
    by_contra hb
    apply h
    apply Nat.eq_of_testBit_eq
    intro i
    simp only [Nat.testBit_and, Nat.testBit_two_pow, Nat.zero_testBit]
    by_cases hik : k = i
    · subst hik; simp [hb]
    · simp [hik]
  · intro hb h
    have := congrArg (fun n => n.testBit k) h
    simp [Nat.testBit_and, Nat.testBit_two_pow, hb] at this

theorem ite_bxor (p q : Bool) (v : Nat) :
    (if (p ^^ q) = true then v else 0) =
      (if p = true then v else 0) ^^^ (if q = true then v else 0) := by
  cases p <;> cases q <;> simp

theorem shiftLeft_xor (x y k : Nat) : (x ^^^ y) <<< k = (x <<< k) ^^^ (y <<< k) := by
  apply Nat.eq_of_testBit_eq
  intro i
  simp only [Nat.testBit_shiftLeft, Nat.testBit_xor]
  by_cases h : k ≤ i <;> simp [h]

theorem shiftRight_xor (x y k : Nat) : (x ^^^ y) >>> k = (x >>> k) ^^^ (y >>> k) := by
  apply Nat.eq_of_testBit_eq
  intro i
  simp only [Nat.testBit_shiftRight, Nat.testBit_xor]

theorem xor_mod_pow (x y k : Nat) : (x ^^^ y) % 2 ^ k = (x % 2 ^ k) ^^^ (y % 2 ^ k) := by
  apply Nat.eq_of_testBit_eq
  intro i
  simp only [Nat.testBit_mod_two_pow, Nat.testBit_xor]
  by_cases h : i < k <;> simp [h]

theorem xor_xor_xor_comm (a b c d : Nat) :
    (a ^^^ b) ^^^ (c ^^^ d) = (a ^^^ c) ^^^ (b ^^^ d) := by
  rw [Nat.xor_assoc, Nat.xor_assoc, ← Nat.xor_assoc b c d, Nat.xor_comm b c,
    Nat.xor_assoc c b d]

theorem xor_cancel_right (a b : Nat) : (a ^^^ b) ^^^ b = a := by
  rw [Nat.xor_assoc, Nat.xor_self, Nat.xor_zero]

theorem XorLinear.map_zero {f : Nat → Nat} (hf : XorLinear f) : f 0 = 0 := by
  have h := hf 0 0
  rw [Nat.xor_self, Nat.xor_self] at h
  exact h

theorem XorLinear.map_ite {f : Nat → Nat} (hf : XorLinear f) (c : Bool) (v : Nat) :
    f (if c = true then v else 0) = if c = true then f v else 0 := by
  cases c
  · simpa using hf.map_zero
  · simp

theorem byte_decomp (a : Nat) (ha : a < 256) : a =
    (if a.testBit 0 then 1 else 0) ^^^ ((if a.testBit 1 then 2 else 0) ^^^
    ((if a.testBit 2 then 4 else 0) ^^^ ((if a.testBit 3 then 8 else 0) ^^^
    ((if a.testBit 4 then 16 else 0) ^^^ ((if a.testBit 5 then 32 else 0) ^^^
    ((if a.testBit 6 then 64 else 0) ^^^ (if a.testBit 7 then 128 else 0))))))) := by
  interval_cases a <;> rfl

/-- Two linear maps that agree on the powers of two below 256 agree on
every byte. -/
theorem xorLinear_ext {f g : Nat → Nat} (hf : XorLinear f) (hg : XorLinear g)
    (h : ∀ k, k < 8 → f (2 ^ k) = g (2 ^ k)) (a : Nat) (ha : a < 256) : f a = g a := by
  have h0 := h 0 (by omega)
  have h1 := h 1 (by omega)
  have h2 := h 2 (by omega)
  have h3 := h 3 (by omega)
  have h4 := h 4 (by omega)
  have h5 := h 5 (by omega)
  have h6 := h 6 (by omega)
  have h7 := h 7 (by omega)
  norm_num at h0 h1 h2 h3 h4 h5 h6 h7
  have hd := byte_decomp a ha
  rw [hd]
  simp only [hf _ _, hg _ _, hf.map_ite, hg.map_ite, h0, h1, h2, h3, h4, h5, h6, h7]

theorem bilinear_ext {f g : Nat → Nat → Nat}
    (hfl : ∀ b, XorLinear (fun a => f a b)) (hfr : ∀ a, XorLinear (fun b => f a b))
    (hgl : ∀ b, XorLinear (fun a => g a b)) (hgr : ∀ a, XorLinear (fun b => g a b))
    (h : ∀ i, i < 8 → ∀ j, j < 8 → f (2 ^ i) (2 ^ j) = g (2 ^ i) (2 ^ j))
    (a b : Nat) (ha : a < 256) (hb : b < 256) : f a b = g a b := by
  refine xorLinear_ext (hfl b) (hgl b) ?_ a ha
  intro i hi
  exact xorLinear_ext (hfr (2 ^ i)) (hgr (2 ^ i)) (fun j hj => h i hi j hj) b hb

/-! ## gmult -/

theorem gmultBody_eq (s : GmultState) :
    gmultBody s =
      { p := s.p ^^^ (if s.b.testBit 0 then s.a else 0), a := xtime s.a, b := s.b >>> 1 } := by
  have h1 : (s.b &&& 1 ≠ 0) ↔ s.b.testBit 0 = true := and_two_pow_ne_zero s.b 0
  have h7 : (s.a &&& 0x80 ≠ 0) ↔ s.a.testBit 7 = true := and_two_pow_ne_zero s.a 7
  unfold gmultBody xtime
  by_cases hb : s.b.testBit 0 = true <;> by_cases ha : s.a.testBit 7 = true
  all_goals simp only [h1, h7, hb, ha, if_true, if_false, Nat.xor_zero]
  all_goals simp_all

theorem xtime_linear : XorLinear xtime := by
  intro x y
  unfold xtime
  have hm := xor_mod_pow (x <<< 1) (y <<< 1) 8
  norm_num at hm
  rw [shiftLeft_xor, hm, Nat.testBit_xor, ite_bxor, xor_xor_xor_comm]

theorem xtime_lt (a : Nat) : xtime a < 256 := by
  unfold xtime
  have h1 : (a <<< 1) % 256 < 2 ^ 8 := Nat.mod_lt _ (by norm_num)
  have h2 : (if a.testBit 7 = true then 0x1b else 0) < 2 ^ 8 := by
    split <;> norm_num
  exact Nat.xor_lt_two_pow h1 h2

theorem gmultLoop_p_lt (n : Nat) (s : GmultState) (hp : s.p < 256) (ha : s.a < 256) :
    (gmultLoop n s).p < 256 := by
  induction n generalizing s with
  | zero => exact hp
  | succ n ih =>
    simp only [gmultLoop]
    apply ih
    · rw [gmultBody_eq]
      have h2 : (if s.b.testBit 0 = true then s.a else 0) < 2 ^ 8 := by
        split
        · exact ha
        · norm_num
      exact Nat.xor_lt_two_pow (n := 8) hp h2
    · rw [gmultBody_eq]
      exact xtime_lt _

theorem gmult_lt (a b : Nat) (ha : a < 256) : gmult a b < 256 :=
  gmultLoop_p_lt 8 _ (by norm_num) ha

theorem gmultLoop_p_linear_a (n : Nat) (p1 p2 a1 a2 b : Nat) :
    (gmultLoop n { p := p1 ^^^ p2, a := a1 ^^^ a2, b := b }).p =
      (gmultLoop n { p := p1, a := a1, b := b }).p ^^^
        (gmultLoop n { p := p2, a := a2, b := b }).p := by
  induction n generalizing p1 p2 a1 a2 b with
  | zero => rfl
  | succ n ih =>
    simp only [gmultLoop, gmultBody_eq]
    rw [xtime_linear a1 a2]
    have h : (p1 ^^^ p2) ^^^ (if b.testBit 0 = true then a1 ^^^ a2 else 0) =
        (p1 ^^^ (if b.testBit 0 = true then a1 else 0)) ^^^
          (p2 ^^^ (if b.testBit 0 = true then a2 else 0)) := by
      rw [xor_xor_xor_comm]
      by_cases hb : b.testBit 0 = true <;> simp [hb]
    rw [h, ih]

theorem gmultLoop_p_linear_b (n : Nat) (p1 p2 a b1 b2 : Nat) :
    (gmultLoop n { p := p1 ^^^ p2, a := a, b := b1 ^^^ b2 }).p =
      (gmultLoop n { p := p1, a := a, b := b1 }).p ^^^
        (gmultLoop n { p := p2, a := a, b := b2 }).p := by
  induction n generalizing p1 p2 a b1 b2 with
  | zero => rfl
  | succ n ih =>
    simp only [gmultLoop, gmultBody_eq]
    rw [shiftRight_xor, Nat.testBit_xor, ite_bxor, xor_xor_xor_comm, ih]

theorem gmult_linear_left (b : Nat) : XorLinear (fun a => gmult a b) := by
  intro x y
  have h := gmultLoop_p_linear_a 8 0 0 x y b
  simpa [gmult] using h

theorem gmult_linear_right (a : Nat) : XorLinear (fun b => gmult a b) := by
  intro x y
  have h := gmultLoop_p_linear_b 8 0 0 a x y
  simpa [gmult] using h

/-- With no bit left in `b` the accumulator `p` no longer changes. -/
theorem gmultLoop_b_zero (n p a : Nat) : (gmultLoop n { p := p, a := a, b := 0 }).p = p := by
  induction n generalizing p a with
  | zero => rfl
  | succ n ih =>
    simp only [gmultLoop, gmultBody_eq]
    simpa using ih p (xtime a)

/-! ## The reference product -/

theorem xorSum_xor (n : Nat) (s t : Nat → Nat) :
    xorSum n (fun i => s i ^^^ t i) = xorSum n s ^^^ xorSum n t := by
  induction n with
  | zero => simp [xorSum]
  | succ n ih => simp only [xorSum, ih, xor_xor_xor_comm]

theorem clmul_linear_left (b : Nat) : XorLinear (fun a => clmul a b) := by
  intro x y
  simp only [clmul]
  rw [← xorSum_xor]
  congr 1
  funext i
  by_cases h : b.testBit i = true <;> simp [h, shiftLeft_xor]

theorem clmul_linear_right (a : Nat) : XorLinear (fun b => clmul a b) := by
  intro x y
  simp only [clmul]
  rw [← xorSum_xor]
  congr 1
  funext i
  rw [Nat.testBit_xor, ite_bxor]

theorem polyModAux_step (m i r : Nat) :
    (if r.testBit (i + 8) = true then r ^^^ (m <<< i) else r) =
      r ^^^ (if r.testBit (i + 8) = true then m <<< i else 0) := by
  by_cases h : r.testBit (i + 8) = true <;> simp [h]

theorem polyModAux_linear (m i : Nat) : XorLinear (polyModAux m i) := by
  induction i with
  | zero => intro x y; rfl
  | succ i ih =>
    intro x y
    simp only [polyModAux, polyModAux_step]
    rw [Nat.testBit_xor, ite_bxor, xor_xor_xor_comm, ih]

theorem gf256Mul_linear_left (b : Nat) : XorLinear (fun a => gf256Mul a b) := by
  intro x y
  simp only [gf256Mul, polyMod11B]
  have h : clmul (x ^^^ y) b = clmul x b ^^^ clmul y b := clmul_linear_left b x y
  rw [h, polyModAux_linear]

theorem gf256Mul_linear_right (a : Nat) : XorLinear (fun b => gf256Mul a b) := by
  intro x y
  simp only [gf256Mul, polyMod11B]
  have h : clmul a (x ^^^ y) = clmul a x ^^^ clmul a y := clmul_linear_right a x y
  rw [h, polyModAux_linear]

theorem clmul_zero (a : Nat) : clmul a 0 = 0 := by
  simp [clmul, xorSum]

theorem xorSum_single (n i : Nat) (t : Nat → Nat) :
    xorSum n (fun k => if i = k then t k else 0) = if i < n then t i else 0 := by
  induction n with
  | zero => simp [xorSum]
  | succ n ih =>
    simp only [xorSum, ih]
    by_cases h1 : i < n
    · have h2 : i ≠ n := by omega
      have h3 : i < n + 1 := by omega
      simp [h1, h2, h3]
    · by_cases h2 : i = n
      · subst h2
        simp
      · have h3 : ¬ i < n + 1 := by omega
        simp [h1, h2, h3]

theorem clmul_two_pow (a i : Nat) (hi : i < 8) : clmul a (2 ^ i) = a <<< i := by
  have h := xorSum_single 8 i (fun k => a <<< k)
  simp only [hi, if_true] at h
  simpa [clmul, Nat.testBit_two_pow] using h

/-- Long division leaves a remainder that differs from the dividend by a
multiple of the divisor. -/
theorem polyModAux_quotient (m i : Nat) (hi : i ≤ 8) (r : Nat) :
    ∃ q, q < 2 ^ i ∧ r = clmul m q ^^^ polyModAux m i r := by
  induction i generalizing r with
  | zero => exact ⟨0, by norm_num, by simp [polyModAux, clmul_zero]⟩
  | succ i ih =>
    simp only [polyModAux, polyModAux_step]
    obtain ⟨q, hq, hr⟩ := ih (by omega) (r ^^^ (if r.testBit (i + 8) = true then m <<< i else 0))
    have hq1 : q < 2 ^ (i + 1) := by
      have : 2 ^ i < 2 ^ (i + 1) := Nat.pow_lt_pow_right (by norm_num) (by omega)
      omega
    by_cases hb : r.testBit (i + 8) = true
    · refine ⟨q ^^^ 2 ^ i, Nat.xor_lt_two_pow hq1 (Nat.pow_lt_pow_right (by norm_num) (by omega)), ?_⟩
      simp only [hb, if_true] at hr ⊢
      have hl : clmul m (q ^^^ 2 ^ i) = clmul m q ^^^ clmul m (2 ^ i) :=
        clmul_linear_right m q (2 ^ i)
      rw [hl, clmul_two_pow m i (by omega)]
      have h2 : r = (r ^^^ m <<< i) ^^^ m <<< i := (xor_cancel_right r (m <<< i)).symm
      rw [Nat.xor_assoc, Nat.xor_comm (m <<< i), ← Nat.xor_assoc, ← hr]
      exact h2
    · refine ⟨q, hq1, ?_⟩
      simp only [hb] at hr ⊢
      simpa using hr

theorem gmult_basis_ref :
    ∀ i, i < 8 → ∀ j, j < 8 → gmult (2 ^ i) (2 ^ j) = gf256Mul (2 ^ i) (2 ^ j) := by
  decide

theorem gmult_basis_comm :
    ∀ i, i < 8 → ∀ j, j < 8 → gmult (2 ^ i) (2 ^ j) = gmult (2 ^ j) (2 ^ i) := by
  decide

theorem gmult_eq_ref (a b : Nat) (ha : a < 256) (hb : b < 256) : gmult a b = gf256Mul a b :=
  bilinear_ext gmult_linear_left gmult_linear_right gf256Mul_linear_left gf256Mul_linear_right
    gmult_basis_ref a b ha hb

theorem coef_mult_eq_cyclicConv (a b : Fin 4 → Nat) : coef_mult a b = cyclicConv a b := by
  funext i
  fin_cases i <;> rfl

theorem nat_xor_left_comm (a b c : Nat) : a ^^^ (b ^^^ c) = b ^^^ (a ^^^ c) := by
  rw [← Nat.xor_assoc, Nat.xor_comm a b, Nat.xor_assoc]

theorem wordMulRef_apply (a b : Fin 4 → Nat) :
    wordMulRef a b =
      ![gf256Mul (a 0) (b 0) ^^^ gf256Mul (a 3) (b 1) ^^^ gf256Mul (a 2) (b 2) ^^^
          gf256Mul (a 1) (b 3),
        gf256Mul (a 1) (b 0) ^^^ gf256Mul (a 0) (b 1) ^^^ gf256Mul (a 3) (b 2) ^^^
          gf256Mul (a 2) (b 3),
        gf256Mul (a 2) (b 0) ^^^ gf256Mul (a 1) (b 1) ^^^ gf256Mul (a 0) (b 2) ^^^
          gf256Mul (a 3) (b 3),
        gf256Mul (a 3) (b 0) ^^^ gf256Mul (a 2) (b 1) ^^^ gf256Mul (a 1) (b 2) ^^^
          gf256Mul (a 0) (b 3)] := by
  have h3 : ((3 : Fin 4) : Nat) = 3 := rfl
  funext i
  fin_cases i <;>
    simp only [wordMulRef, modX4Plus1, polyMulCoeff, xorSum4, h3, Fin.val_zero, Fin.val_one,
      Fin.val_two, Fin.zero_eta, Fin.mk_one, Fin.reduceFinMk, Matrix.cons_val_zero,
      Matrix.cons_val_one, Matrix.head_cons, Matrix.cons_val_two, Matrix.tail_cons,
      Matrix.cons_val_three, Nat.reduceAdd, Nat.reduceEqDiff, if_true, if_false,
      Nat.xor_zero, Nat.zero_xor, OfNat.ofNat_ne_zero, OfNat.zero_ne_ofNat,
      Nat.succ_ne_self, one_ne_zero, zero_ne_one] <;>
    simp only [Nat.xor_assoc, Nat.xor_comm, nat_xor_left_comm]

/-! ## The channel swap -/

theorem swapTriples_length : ∀ l : List Nat, (swapTriples l).length = l.length
  | x :: y :: z :: rest => by simp [swapTriples, swapTriples_length rest]
  | [_, _] => rfl
  | [_] => rfl
  | [] => rfl

theorem swapTriples_involutive : ∀ l : List Nat, swapTriples (swapTriples l) = l
  | x :: y :: z :: rest => by simp [swapTriples, swapTriples_involutive rest]
  | [_, _] => rfl
  | [_] => rfl
  | [] => rfl

theorem swapTriples_getElem? : ∀ (l : List Nat) (k : Nat), 3 * k + 2 < l.length →
    (swapTriples l)[3 * k]? = l[3 * k + 2]? ∧ (swapTriples l)[3 * k + 1]? = l[3 * k + 1]? ∧
      (swapTriples l)[3 * k + 2]? = l[3 * k]?
  | x :: y :: z :: rest, 0, _ => by simp [swapTriples]
  | x :: y :: z :: rest, k + 1, h => by
    have h' : 3 * k + 2 < rest.length := by simp at h; omega
    have ih := swapTriples_getElem? rest k h'
    have e0 : 3 * (k + 1) = 3 * k + 3 := by omega
    simp only [swapTriples, e0]
    simpa using ih
  | [_, _], k, h => by simp at h
  | [_], k, h => by simp at h
  | [], k, h => by simp at h

/-- The loop invariant: with the bytes before `imageIdx` already exchanged,
the loop exchanges the remaining triplets and stops at the end of the block. -/
theorem swapLoop_append (fuel : Nat) (done rest : List Nat) (it : Nat)
    (h3 : rest.length % 3 = 0) (hfuel : rest.length ≤ 3 * fuel)
    (hmax : done.length + rest.length ≤ INT_MAX) :
    swapLoop ((done.length + rest.length : Nat) : Int) fuel
        { imageIdx := done.length, bitmapImage := done ++ rest, iterations := it } =
      .ok { imageIdx := done.length + rest.length, bitmapImage := done ++ swapTriples rest,
            iterations := it + rest.length / 3 } := by
  induction fuel generalizing done rest it with
  | zero =>
    have h0 : rest = [] := List.eq_nil_of_length_eq_zero (by omega)
    subst h0
    simp [swapLoop, swapTriples]
  | succ fuel ih =>
    match rest, h3, hfuel, hmax with
    | [], _, _, _ => simp [swapLoop, swapTriples]
    | [_], h3, _, _ => simp at h3
    | [_, _], h3, _, _ => simp at h3
    | x :: y :: z :: rest', h3, hfuel, hmax =>
      simp only [List.length_cons] at h3 hfuel hmax
      have hlt : ((done.length : Nat) : Int) < ((done.length + (rest'.length + 1 + 1 + 1) : Nat) : Int) := by
        omega
      have hm2 : ¬ INT_MAX < done.length + 2 := by omega
      have hm3 : ¬ INT_MAX < done.length + 3 := by omega
      have g0 : (done ++ x :: y :: z :: rest')[done.length]? = some x := by
        rw [List.getElem?_append_right (by omega)]
        simp
      have g2 : (done ++ x :: y :: z :: rest')[done.length + 2]? = some z := by
        rw [List.getElem?_append_right (by omega)]
        simp
      have hset : ((done ++ x :: y :: z :: rest').set done.length z).set (done.length + 2) x =
          (done ++ [z, y, x]) ++ rest' := by
        simp [List.set_append]
      have ih' := ih (done ++ [z, y, x]) rest' (it + 1) (by omega) (by omega)
        (by simp; omega)
      simp only [swapLoop, List.length_cons, hlt, if_true, hm2, if_false, g0, g2, hm3, hset]
      have e1 : (done ++ [z, y, x]).length = done.length + 3 := by simp
      rw [e1] at ih'
      have e2 : done.length + 3 + rest'.length = done.length + (rest'.length + 1 + 1 + 1) := by omega
      rw [e2] at ih'
      rw [ih']
      have e3 : it + 1 + rest'.length / 3 = it + (rest'.length + 1 + 1 + 1) / 3 := by omega
      simp [swapTriples, e3]

theorem swapChannels_eq (p : List Nat) (h3 : p.length % 3 = 0) (hmax : p.length ≤ INT_MAX) :
    swapChannels (p.length : Int) p =
      .ok { imageIdx := p.length, bitmapImage := swapTriples p, iterations := p.length / 3 } := by
  have h := swapLoop_append p.length [] p 0 h3 (by omega) (by simpa using hmax)
  simpa [swapChannels] using h

/-! ## Header records -/

theorem leBytes_length (n u : Nat) : (leBytes n u).length = n := by
  induction n generalizing u with
  | zero => rfl
  | succ n ih => simp [leBytes, ih]

theorem encodeFileHeader_length (h : BITMAPFILEHEADER) : (encodeFileHeader h).length = 14 := by
  simp [encodeFileHeader, encodeWORD, encodeDWORD, leBytes_length]

theorem encodeInfoHeader_length (h : BITMAPINFOHEADER) : (encodeInfoHeader h).length = 40 := by
  simp [encodeInfoHeader, encodeWORD, encodeDWORD, leBytes_length]

theorem IsBytes.drop {l : List Nat} (h : IsBytes l) (k : Nat) : IsBytes (l.drop k) :=
  fun x hx => h x (List.mem_of_mem_drop hx)

theorem IsBytes.take {l : List Nat} (h : IsBytes l) (k : Nat) : IsBytes (l.take k) :=
  fun x hx => h x (List.mem_of_mem_take hx)

theorem encodeWORD_decodeWORD (l : List Nat) (hl : 2 ≤ l.length) (hb : IsBytes l) :
    encodeWORD (decodeWORD l) = l.take 2 := by
  match l, hl, hb with
  | a :: b :: rest, _, hb =>
    have ha : a < 256 := hb a (by simp)
    have hb' : b < 256 := hb b (by simp)
    simp only [encodeWORD, decodeWORD, List.take_succ_cons, List.take_zero, leValue, toSigned,
      leBytes]
    have e1 : a % 256 = a := Nat.mod_eq_of_lt ha
    have e2 : b % 256 = b := Nat.mod_eq_of_lt hb'
    rw [e1, e2]
    split <;> (simp only [List.cons.injEq, and_true]; omega)

theorem encodeDWORD_decodeDWORD (l : List Nat) (hl : 4 ≤ l.length) (hb : IsBytes l) :
    encodeDWORD (decodeDWORD l) = l.take 4 := by
  match l, hl, hb with
  | a :: b :: c :: d :: rest, _, hb =>
    have ha : a < 256 := hb a (by simp)
    have hb' : b < 256 := hb b (by simp)
    have hc : c < 256 := hb c (by simp)
    have hd : d < 256 := hb d (by simp)
    simp only [encodeDWORD, decodeDWORD, List.take_succ_cons, List.take_zero, leValue, toSigned,
      leBytes]
    have e1 : a % 256 = a := Nat.mod_eq_of_lt ha
    have e2 : b % 256 = b := Nat.mod_eq_of_lt hb'
    have e3 : c % 256 = c := Nat.mod_eq_of_lt hc
    have e4 : d % 256 = d := Nat.mod_eq_of_lt hd
    rw [e1, e2, e3, e4]
    split <;> (simp only [List.cons.injEq, and_true]; omega)

theorem take_drop_append_drop (l : List Nat) (k m : Nat) :
    (l.drop k).take m ++ l.drop (k + m) = l.drop k := by
  have h := List.take_append_drop m (l.drop k)
  rw [List.drop_drop] at h
  exact h

theorem encodeFileHeader_decodeFileHeader (bs : List Nat) (hlen : bs.length = 14)
    (hb : IsBytes bs) : encodeFileHeader (decodeFileHeader bs) = bs := by
  simp only [encodeFileHeader, decodeFileHeader]
  rw [encodeWORD_decodeWORD bs (by omega) hb,
    encodeDWORD_decodeDWORD (bs.drop 2) (by simp; omega) (hb.drop 2),
    encodeWORD_decodeWORD (bs.drop 6) (by simp; omega) (hb.drop 6),
    encodeWORD_decodeWORD (bs.drop 8) (by simp; omega) (hb.drop 8),
    encodeDWORD_decodeDWORD (bs.drop 10) (by simp; omega) (hb.drop 10)]
  have e : (bs.drop 10).take 4 = bs.drop 10 := List.take_of_length_le (by simp; omega)
  rw [e]
  simp only [List.append_assoc]
  rw [take_drop_append_drop bs 8 2, take_drop_append_drop bs 6 2, take_drop_append_drop bs 2 4,
    List.take_append_drop]

theorem encodeInfoHeader_decodeInfoHeader (bs : List Nat) (hlen : bs.length = 40)
    (hb : IsBytes bs) : encodeInfoHeader (decodeInfoHeader bs) = bs := by
  simp only [encodeInfoHeader, decodeInfoHeader]
  rw [encodeDWORD_decodeDWORD bs (by omega) hb,
    encodeDWORD_decodeDWORD (bs.drop 4) (by simp; omega) (hb.drop 4),
    encodeDWORD_decodeDWORD (bs.drop 8) (by simp; omega) (hb.drop 8),
    encodeWORD_decodeWORD (bs.drop 12) (by simp; omega) (hb.drop 12),
    encodeWORD_decodeWORD (bs.drop 14) (by simp; omega) (hb.drop 14),
    encodeDWORD_decodeDWORD (bs.drop 16) (by simp; omega) (hb.drop 16),
    encodeDWORD_decodeDWORD (bs.drop 20) (by simp; omega) (hb.drop 20),
    encodeDWORD_decodeDWORD (bs.drop 24) (by simp; omega) (hb.drop 24),
    encodeDWORD_decodeDWORD (bs.drop 28) (by simp; omega) (hb.drop 28),
    encodeDWORD_decodeDWORD (bs.drop 32) (by simp; omega) (hb.drop 32),
    encodeDWORD_decodeDWORD (bs.drop 36) (by simp; omega) (hb.drop 36)]
  have e : (bs.drop 36).take 4 = bs.drop 36 := List.take_of_length_le (by simp; omega)
  rw [e]
  simp only [List.append_assoc]
  rw [take_drop_append_drop bs 32 4, take_drop_append_drop bs 28 4,
    take_drop_append_drop bs 24 4, take_drop_append_drop bs 20 4,
    take_drop_append_drop bs 16 4, take_drop_append_drop bs 14 2,
    take_drop_append_drop bs 12 2, take_drop_append_drop bs 8 4,
    take_drop_append_drop bs 4 4, List.take_append_drop]

theorem toSigned32_le (u : Nat) (hu : u < 2 ^ 32) : toSigned 32 u ≤ 2147483647 := by
  unfold toSigned
  split <;> omega

theorem leValue_lt : ∀ l : List Nat, leValue l < 256 ^ l.length
  | [] => by simp [leValue]
  | b :: bs => by
    have ih := leValue_lt bs
    have hb : b % 256 < 256 := Nat.mod_lt _ (by norm_num)
    simp only [leValue, List.length_cons, pow_succ]
    nlinarith

theorem decodeDWORD_le (l : List Nat) : decodeDWORD l ≤ 2147483647 := by
  unfold decodeDWORD
  apply toSigned32_le
  have h := leValue_lt (l.take 4)
  have h4 : (l.take 4).length ≤ 4 := by simp
  calc leValue (l.take 4) < 256 ^ (l.take 4).length := h
    _ ≤ 256 ^ 4 := Nat.pow_le_pow_right (by norm_num) h4
    _ = 2 ^ 32 := by norm_num

/-! ## Reading -/

theorem freadBytes_length_le (n : Nat) (fp : FILE) : (freadBytes n fp).length ≤ n := by
  simp [freadBytes]

theorem freadMem_length (mem : List Nat) (n : Nat) (fp : FILE) (h : mem.length = n) :
    (freadMem mem n fp).length = n := by
  have := freadBytes_length_le n fp
  simp only [freadMem, List.length_append, List.length_drop, h]
  omega

theorem freadBytes_full (n : Nat) (fp : FILE) (h : fp.pos + n ≤ fp.content.length) :
    (freadBytes n fp).length = n := by
  simp [freadBytes]
  omega

theorem freadMem_full (mem : List Nat) (n : Nat) (fp : FILE) (hm : mem.length = n)
    (h : fp.pos + n ≤ fp.content.length) :
    freadMem mem n fp = (fp.content.drop fp.pos).take n := by
  have hl := freadBytes_full n fp h
  simp only [freadMem, hl]
  rw [List.drop_of_length_le (by omega)]
  simp [freadBytes]

theorem toSizeT_natCast (n : Nat) (h : n ≤ INT_MAX) : toSizeT (n : Int) = n := by
  unfold toSizeT
  unfold INT_MAX at h
  omega

theorem freshBlock_length (heap : Nat → Nat) (n : Nat) : (freshBlock heap n).length = n := by
  simp [freshBlock]

/-- The run of `LoadBitmapFile` on a file that holds both headers, carries
the tag and announces `n` bytes of pixels, `n` a multiple of 3, when the
block is allocated. -/
theorem LoadBitmapFile_success (host : Host) (f : List Nat) (ih0 : BITMAPINFOHEADER)
    (fh0 : BITMAPFILEHEADER) (n : Nat) (hopen : host.fopenRead = some f)
    (h54 : 54 ≤ f.length) (hmagic : (decodeFileHeader (f.take 14)).bfType = 0x4D42)
    (hn : (decodeInfoHeader ((f.drop 14).take 40)).biSizeImage = (n : Int))
    (h3 : n % 3 = 0) (hmalloc : host.malloc n = true) :
    LoadBitmapFile host ih0 fh0 =
      .ok { ret := some (swapTriples (freadMem (freshBlock host.heap n) n
                    (fseek { content := f, pos := 54 } (decodeFileHeader (f.take 14)).bOffBits)))
            bitmapInfoHeader := decodeInfoHeader ((f.drop 14).take 40)
            bitmapFileHeader := decodeFileHeader (f.take 14)
            trace := [.fopen true, .fread 14 14, .fread 40 40,
              .fseek (decodeFileHeader (f.take 14)).bOffBits, .malloc n true,
              .fread n (freadBytes n
                (fseek { content := f, pos := 54 } (decodeFileHeader (f.take 14)).bOffBits)).length,
              .fclose]
            swapIterations := n / 3 } := by
  have hmax : n ≤ INT_MAX := by
    have h := decodeDWORD_le (((f.drop 14).take 40).drop 20)
    have e : (decodeInfoHeader ((f.drop 14).take 40)).biSizeImage =
        decodeDWORD (((f.drop 14).take 40).drop 20) := rfl
    rw [e] at hn
    unfold INT_MAX
    omega
  have m1 : freadMem (encodeFileHeader fh0) 14 { content := f, pos := 0 } = f.take 14 := by
    rw [freadMem_full _ _ _ (encodeFileHeader_length fh0) (by simpa using (by omega : 14 ≤ f.length))]
    simp
  have l1 : (freadBytes 14 { content := f, pos := 0 }).length = 14 :=
    freadBytes_full _ _ (by simpa using (by omega : 14 ≤ f.length))
  have p1 : freadFile 14 { content := f, pos := 0 } = { content := f, pos := 14 } := by
    simp [freadFile, l1]
  have m2 : freadMem (encodeInfoHeader ih0) 40 { content := f, pos := 14 } =
      (f.drop 14).take 40 :=
    freadMem_full _ _ _ (encodeInfoHeader_length ih0) (by simpa using (by omega : 14 + 40 ≤ f.length))
  have l2 : (freadBytes 40 { content := f, pos := 14 }).length = 40 :=
    freadBytes_full _ _ (by simpa using (by omega : 14 + 40 ≤ f.length))
  have p2 : freadFile 40 { content := f, pos := 14 } = { content := f, pos := 54 } := by
    simp [freadFile, l2]
  have hs : toSizeT (n : Int) = n := toSizeT_natCast n hmax
  have hlen : (freadMem (freshBlock host.heap n) n
      (fseek { content := f, pos := 54 } (decodeFileHeader (f.take 14)).bOffBits)).length = n :=
    freadMem_length _ _ _ (freshBlock_length _ _)
  have hsw := swapChannels_eq (freadMem (freshBlock host.heap n) n
      (fseek { content := f, pos := 54 } (decodeFileHeader (f.take 14)).bOffBits))
      (by rw [hlen]; exact h3) (by rw [hlen]; exact hmax)
  rw [hlen] at hsw
  simp only [LoadBitmapFile, hopen, m1, l1, p1, m2, l2, p2, hmagic, hn, hs, hmalloc, hsw,
    ne_eq, not_true_eq_false, if_false, if_true, List.cons_append, List.nil_append]

/-! ## Claims about `LoadBitmapFile` on its early exits -/

theorem decodeWORD_append (l1 l2 : List Nat) (h : 2 ≤ l1.length) :
    decodeWORD (l1 ++ l2) = decodeWORD l1 := by
  unfold decodeWORD
  rw [List.take_append_of_le_length h]

theorem decodeWORD_ne_magic (f : List Nat) (hb : IsBytes f) (h2 : 2 ≤ f.length)
    (hm : f.take 2 ≠ [0x42, 0x4D]) : decodeWORD f ≠ 0x4D42 := by
  match f, hb, h2, hm with
  | a :: b :: rest, hb, _, hm =>
    have ha : a < 256 := hb a (by simp)
    have hb' : b < 256 := hb b (by simp)
    simp only [List.take_succ_cons, List.take_zero, ne_eq, List.cons.injEq, and_true,
      not_and] at hm
    simp only [decodeWORD, List.take_succ_cons, List.take_zero, leValue, toSigned]
    intro h
    split at h
    · have h1 : a = 0x42 := by omega
      have h2 : b = 0x4D := by omega
      exact hm h1 h2
    · omega

theorem LoadBitmapFile_bad_magic (host : Host) (f : List Nat) (ih0 : BITMAPINFOHEADER)
    (fh0 : BITMAPFILEHEADER) (hopen : host.fopenRead = some f) (hb : IsBytes f)
    (h2 : 2 ≤ f.length) (hm : f.take 2 ≠ [0x42, 0x4D]) :
    LoadBitmapFile host ih0 fh0 =
      .ok { ret := none
            bitmapInfoHeader := ih0
            bitmapFileHeader :=
              decodeFileHeader (freadMem (encodeFileHeader fh0) 14 { content := f, pos := 0 })
            trace := [.fopen true, .fread 14 (min 14 f.length), .fclose]
            swapIterations := 0 } := by
  have hty : (decodeFileHeader
      (freadMem (encodeFileHeader fh0) 14 { content := f, pos := 0 })).bfType ≠ 0x4D42 := by
    have e : (decodeFileHeader
        (freadMem (encodeFileHeader fh0) 14 { content := f, pos := 0 })).bfType =
        decodeWORD (freadMem (encodeFileHeader fh0) 14 { content := f, pos := 0 }) := rfl
    rw [e]
    simp only [freadMem, freadBytes, List.drop_zero]
    rw [decodeWORD_append _ _ (by simp; omega)]
    have e2 : decodeWORD (f.take 14) = decodeWORD f := by
      unfold decodeWORD
      rw [List.take_take]
      rfl
    rw [e2]
    exact decodeWORD_ne_magic f hb h2 hm
  have hl : (freadBytes 14 { content := f, pos := 0 }).length = min 14 f.length := by
    simp [freadBytes]
  simp only [LoadBitmapFile, hopen, hty, hl, ne_eq, not_false_eq_true, if_true,
    List.cons_append, List.nil_append]

theorem LoadBitmapFile_open_failure (host : Host) (ih0 : BITMAPINFOHEADER)
    (fh0 : BITMAPFILEHEADER) (hopen : host.fopenRead = none) :
    LoadBitmapFile host ih0 fh0 =
      .ok { ret := none, bitmapInfoHeader := ih0, bitmapFileHeader := fh0,
            trace := [.fopen false, .printf], swapIterations := 0 } := by
  simp only [LoadBitmapFile, hopen]

/-! ## Writing -/

theorem ReloadBitmapFile_success (host : Host) (p : List Nat) (fh : BITMAPFILEHEADER)
    (ih : BITMAPINFOHEADER) (hw : host.fopenWrite = true)
    (hn : ih.biSizeImage = (p.length : Int)) (h3 : p.length % 3 = 0)
    (hmax : p.length ≤ INT_MAX) :
    ReloadBitmapFile host p fh ih =
      .ok { bitmapImage := swapTriples p
            written := encodeFileHeader fh ++ encodeInfoHeader ih ++ swapTriples p
            trace := [.fopen true, .fwrite 14, .fwrite 40, .fwrite p.length, .fclose] } := by
  have hs : toSizeT (p.length : Int) = p.length := toSizeT_natCast _ hmax
  have hsw := swapChannels_eq p h3 hmax
  have hl : (swapTriples p).length = p.length := swapTriples_length p
  have ht : (swapTriples p).take p.length = swapTriples p :=
    List.take_of_length_le (by omega)
  simp [ReloadBitmapFile, hw, hn, hs, hsw, hl, ht]

theorem loadThenReload_exact (host : Host) (f : List Nat) (ih0 : BITMAPINFOHEADER)
    (fh0 : BITMAPFILEHEADER) (n : Nat) (hopen : host.fopenRead = some f)
    (hw : host.fopenWrite = true) (hb : IsBytes f)
    (hmagic : (decodeFileHeader (f.take 14)).bfType = 0x4D42)
    (hoff : (decodeFileHeader (f.take 14)).bOffBits = 54)
    (hn : (decodeInfoHeader ((f.drop 14).take 40)).biSizeImage = (n : Int))
    (hlen : f.length = 54 + n) (h3 : n % 3 = 0) (hmalloc : host.malloc n = true) :
    loadThenReload host ih0 fh0 = some f := by
  have hmax : n ≤ INT_MAX := by
    have h := decodeDWORD_le (((f.drop 14).take 40).drop 20)
    have e : (decodeInfoHeader ((f.drop 14).take 40)).biSizeImage =
        decodeDWORD (((f.drop 14).take 40).drop 20) := rfl
    rw [e] at hn
    unfold INT_MAX
    omega
  have hload := LoadBitmapFile_success host f ih0 fh0 n hopen (by omega) hmagic hn h3 hmalloc
  have hseek : fseek { content := f, pos := 54 } (decodeFileHeader (f.take 14)).bOffBits =
      { content := f, pos := 54 } := by
    simp [fseek, hoff]
  have hpix : freadMem (freshBlock host.heap n) n { content := f, pos := 54 } = f.drop 54 := by
    rw [freadMem_full _ _ _ (freshBlock_length _ _) (by simp; omega)]
    exact List.take_of_length_le (by simp; omega)
  rw [hseek, hpix] at hload
  have hpl : (f.drop 54).length = n := by simp; omega
  have hsl : (swapTriples (f.drop 54)).length = n := by rw [swapTriples_length, hpl]
  have hstore := ReloadBitmapFile_success host (swapTriples (f.drop 54))
    (decodeFileHeader (f.take 14)) (decodeInfoHeader ((f.drop 14).take 40)) hw
    (by rw [hsl]; exact hn) (by rw [hsl]; exact h3) (by rw [hsl]; exact hmax)
  rw [swapTriples_involutive,
    encodeFileHeader_decodeFileHeader (f.take 14) (by simp; omega) (hb.take 14),
    encodeInfoHeader_decodeInfoHeader ((f.drop 14).take 40) (by simp; omega)
      ((hb.drop 14).take 40)] at hstore
  have hcat : f.take 14 ++ (f.drop 14).take 40 ++ f.drop 54 = f := by
    rw [List.append_assoc, take_drop_append_drop f 14 40, List.take_append_drop]
  simp only [loadThenReload, hload, hstore, hcat]

/-! ## The claims of the specification -/

/-- C1, as the code has it: for every bitmap file made of bytes that carries
the tag, whose pixel data follows the two headers directly (`bOffBits = 54`)
and runs to the end of the file (`length = 54 + biSizeImage`), with
`biSizeImage` a non-negative multiple of 3, `LoadBitmapFile` followed at once by
`ReloadBitmapFile` with the buffer returned and the two records populated
writes exactly the bytes of the original file, when the allocation and the
opening of the destination succeed. -/
theorem load_then_reload_reproduces_file (host : Host) (f : List Nat)
    (ih0 : BITMAPINFOHEADER) (fh0 : BITMAPFILEHEADER) (n : Nat)
    (hopen : host.fopenRead = some f) (hw : host.fopenWrite = true) (hb : IsBytes f)
    (hmagic : (decodeFileHeader (f.take 14)).bfType = 0x4D42)
    (hoff : (decodeFileHeader (f.take 14)).bOffBits = 54)
    (hn : (decodeInfoHeader ((f.drop 14).take 40)).biSizeImage = (n : Int))
    (hlen : f.length = 54 + n) (h3 : n % 3 = 0) (hmalloc : host.malloc n = true) :
    loadThenReload host ih0 fh0 = some f :=
  loadThenReload_exact host f ih0 fh0 n hopen hw hb hmagic hoff hn hlen h3 hmalloc

/-- C1, an instance: the 66 bytes of a 4 by 1 image are written back unchanged. -/
theorem load_then_reload_reproduces_file_witness :
    (hostWith plainFile).fopenRead = some plainFile ∧
      (hostWith plainFile).fopenWrite = true ∧ IsBytes plainFile ∧
      (decodeFileHeader (plainFile.take 14)).bfType = 0x4D42 ∧
      (decodeFileHeader (plainFile.take 14)).bOffBits = 54 ∧
      (decodeInfoHeader ((plainFile.drop 14).take 40)).biSizeImage = ((12 : Nat) : Int) ∧
      plainFile.length = 54 + 12 ∧ 12 % 3 = 0 ∧ (hostWith plainFile).malloc 12 = true ∧
      loadThenReload (hostWith plainFile) zeroInfoHeader zeroFileHeader = some plainFile :=
  ⟨rfl, rfl, by decide, by decide, by decide, by decide, by decide, by decide, rfl,
    load_then_reload_reproduces_file (hostWith plainFile) plainFile zeroInfoHeader
      zeroFileHeader 12 rfl rfl (by decide) (by decide) (by decide) (by decide) (by decide)
      (by decide) rfl⟩

/-- C1, as stated, fails: a valid 24-bit uncompressed bitmap file whose pixel
data starts at offset 58, after a colour table of one entry, is written back
as 66 bytes, the headers followed directly by the pixels, and not as the 70
bytes of the original. -/
theorem load_then_reload_drops_colour_table :
    ValidBmp24 tableFile ∧
      loadThenReload (hostWith tableFile) zeroInfoHeader zeroFileHeader =
        some (tableFile.take 54 ++ tableFile.drop 58) ∧
      loadThenReload (hostWith tableFile) zeroInfoHeader zeroFileHeader ≠ some tableFile := by
  refine ⟨by decide, by decide, by decide⟩

/-- C2: for all bytes `a` and `b`, the accumulator returned by `gmult` after
its eight passes is the carry-less product of `a` and `b` reduced modulo
`x^8+x^4+x^3+x+1`: it equals the reference product, it is a byte, and it
differs from the carry-less product by a multiple of `0x11B`. -/
theorem gmult_is_reduced_carryless_product (a b : Nat) (ha : a < 256) (hb : b < 256) :
    gmult a b = gf256Mul a b ∧ gmult a b < 256 ∧
      ∃ q, clmul a b = clmul 0x11B q ^^^ gmult a b := by
  have href := gmult_eq_ref a b ha hb
  refine ⟨href, gmult_lt a b ha, ?_⟩
  obtain ⟨q, _, hq⟩ := polyModAux_quotient 0x11B 8 (le_refl 8) (clmul a b)
  exact ⟨q, by rw [href]; exact hq⟩

/-- C2, an instance: the product of `0x57` and `0x83`. -/
theorem gmult_is_reduced_carryless_product_witness :
    0x57 < 256 ∧ 0x83 < 256 ∧ (gmult 0x57 0x83 = gf256Mul 0x57 0x83 ∧ gmult 0x57 0x83 < 256 ∧
      ∃ q, clmul 0x57 0x83 = clmul 0x11B q ^^^ gmult 0x57 0x83) :=
  ⟨by decide, by decide, gmult_is_reduced_carryless_product 0x57 0x83 (by decide) (by decide)⟩

/-- C3: for all 4-byte words `a` and `b`, `coef_mult` sets `d` to the product
of the polynomials `a0+a1*x+a2*x^2+a3*x^3` and `b0+b1*x+b2*x^2+b3*x^3` over
GF(2^8) reduced modulo `x^4+1`; equivalently `d[i]` is the exclusive or over
`j` of `gmult(a[(i - j) mod 4], b[j])`. -/
theorem coef_mult_is_product_mod_x4_plus_1 (a b : Fin 4 → Nat) (ha : ∀ i, a i < 256)
    (hb : ∀ i, b i < 256) :
    coef_mult a b = wordMulRef a b ∧ coef_mult a b = cyclicConv a b := by
  refine ⟨?_, coef_mult_eq_cyclicConv a b⟩
  have e : ∀ i j, gf256Mul (a i) (b j) = gmult (a i) (b j) :=
    fun i j => (gmult_eq_ref _ _ (ha i) (hb j)).symm
  rw [wordMulRef_apply]
  simp only [e]
  rfl

/-- C3, an instance: the column-mixing word times a column of the standard. -/
theorem coef_mult_is_product_mod_x4_plus_1_witness :
    (∀ i, (![0x02, 0x01, 0x01, 0x03] : Fin 4 → Nat) i < 256) ∧
      (∀ i, (![0xd4, 0xbf, 0x5d, 0x30] : Fin 4 → Nat) i < 256) ∧
      (coef_mult ![0x02, 0x01, 0x01, 0x03] ![0xd4, 0xbf, 0x5d, 0x30] =
          wordMulRef ![0x02, 0x01, 0x01, 0x03] ![0xd4, 0xbf, 0x5d, 0x30] ∧
        coef_mult ![0x02, 0x01, 0x01, 0x03] ![0xd4, 0xbf, 0x5d, 0x30] =
          cyclicConv ![0x02, 0x01, 0x01, 0x03] ![0xd4, 0xbf, 0x5d, 0x30]) :=
  ⟨by decide, by decide,
    coef_mult_is_product_mod_x4_plus_1 ![0x02, 0x01, 0x01, 0x03] ![0xd4, 0xbf, 0x5d, 0x30]
      (by decide) (by decide)⟩

/-- C4: `gmult` is commutative on all 256 x 256 pairs of bytes. -/
theorem gmult_commutative (a b : Nat) (ha : a < 256) (hb : b < 256) :
    gmult a b = gmult b a :=
  bilinear_ext (f := gmult) (g := fun a b => gmult b a)
    gmult_linear_left gmult_linear_right gmult_linear_right gmult_linear_left
    gmult_basis_comm a b ha hb

/-- C4, an instance: `0x57` and `0x83` in either order. -/
theorem gmult_commutative_witness :
    0x57 < 256 ∧ 0x83 < 256 ∧ gmult 0x57 0x83 = gmult 0x83 0x57 :=
  ⟨by decide, by decide, gmult_commutative 0x57 0x83 (by decide) (by decide)⟩

/-- C5: for every byte `a`, `gmult(a, 0) = 0` and `gmult(a, 1) = a`. -/
theorem gmult_zero_and_one (a : Nat) (_ha : a < 256) : gmult a 0 = 0 ∧ gmult a 1 = a := by
  constructor
  · exact gmultLoop_b_zero 8 0 a
  · have h : gmultBody { p := 0, a := a, b := 1 } = { p := a, a := xtime a, b := 0 } := by
      rw [gmultBody_eq]
      simp
    show (gmultLoop 7 (gmultBody { p := 0, a := a, b := 1 })).p = a
    rw [h]
    exact gmultLoop_b_zero 7 a (xtime a)

/-- C5, an instance: the byte `0xC3`. -/
theorem gmult_zero_and_one_witness : 0xC3 < 256 ∧ gmult 0xC3 0 = 0 ∧ gmult 0xC3 1 = 0xC3 :=
  ⟨by decide, gmult_zero_and_one 0xC3 (by decide)⟩

/-- C6: `gmult(0x53, 0xCA) = 0x01`, the check value of the standard. -/
theorem gmult_check_value : gmult 0x53 0xCA = 0x01 := by
  decide

/-- C7: for every openable file of bytes whose first two bytes are not
`0x42 0x4D`, `LoadBitmapFile` returns `NULL`, calls `malloc` not at all, closes
the file, and reads only the file header: the info header record is left as
the caller supplied it. -/
theorem load_rejects_wrong_tag (host : Host) (f : List Nat) (ih0 : BITMAPINFOHEADER)
    (fh0 : BITMAPFILEHEADER) (hopen : host.fopenRead = some f) (hb : IsBytes f)
    (h2 : 2 ≤ f.length) (hm : f.take 2 ≠ [0x42, 0x4D]) :
    ∃ r, LoadBitmapFile host ih0 fh0 = .ok r ∧ r.ret = none ∧ mallocCalls r.trace = 0 ∧
      openHandles r.trace = 0 ∧ r.trace = [.fopen true, .fread 14 (min 14 f.length), .fclose] ∧
      freadCalls r.trace = 1 ∧ r.bitmapInfoHeader = ih0 :=
  ⟨_, LoadBitmapFile_bad_magic host f ih0 fh0 hopen hb h2 hm, rfl, rfl, rfl, rfl, rfl, rfl⟩

/-- C7, an instance: a file of six bytes of text. -/
theorem load_rejects_wrong_tag_witness :
    (hostWith textFile).fopenRead = some textFile ∧ IsBytes textFile ∧ 2 ≤ textFile.length ∧
      textFile.take 2 ≠ [0x42, 0x4D] ∧
      ∃ r, LoadBitmapFile (hostWith textFile) zeroInfoHeader zeroFileHeader = .ok r ∧
        r.ret = none ∧ mallocCalls r.trace = 0 ∧ openHandles r.trace = 0 ∧
        r.trace = [.fopen true, .fread 14 (min 14 textFile.length), .fclose] ∧
        freadCalls r.trace = 1 ∧ r.bitmapInfoHeader = zeroInfoHeader :=
  ⟨rfl, by decide, by decide, by decide,
    load_rejects_wrong_tag (hostWith textFile) textFile zeroInfoHeader zeroFileHeader rfl
      (by decide) (by decide) (by decide)⟩

/-- C8: when the path cannot be opened, `LoadBitmapFile` returns `NULL`
without reading any header: no `fread` and no `malloc` is called and both
records of the caller are left unchanged. -/
theorem load_open_failure_reads_nothing (host : Host) (ih0 : BITMAPINFOHEADER)
    (fh0 : BITMAPFILEHEADER) (hopen : host.fopenRead = none) :
    ∃ r, LoadBitmapFile host ih0 fh0 = .ok r ∧ r.ret = none ∧ r.bitmapInfoHeader = ih0 ∧
      r.bitmapFileHeader = fh0 ∧ freadCalls r.trace = 0 ∧ mallocCalls r.trace = 0 ∧
      r.trace = [.fopen false, .printf] :=
  ⟨_, LoadBitmapFile_open_failure host ih0 fh0 hopen, rfl, rfl, rfl, rfl, rfl, rfl⟩

/-- C8, an instance: a host without the file. -/
theorem load_open_failure_reads_nothing_witness :
    hostNoFile.fopenRead = none ∧
      ∃ r, LoadBitmapFile hostNoFile zeroInfoHeader zeroFileHeader = .ok r ∧ r.ret = none ∧
        r.bitmapInfoHeader = zeroInfoHeader ∧ r.bitmapFileHeader = zeroFileHeader ∧
        freadCalls r.trace = 0 ∧ mallocCalls r.trace = 0 ∧ r.trace = [.fopen false, .printf] :=
  ⟨rfl, load_open_failure_reads_nothing hostNoFile zeroInfoHeader zeroFileHeader rfl⟩

/-- C9: for every openable file that holds both headers, carries the tag and
has `biSizeImage = 0`, `LoadBitmapFile` does not return `NULL` but a block of
length zero, and the swap loop makes no pass, the block of zero bytes being
allocated. -/
theorem load_zero_size_image (host : Host) (f : List Nat) (ih0 : BITMAPINFOHEADER)
    (fh0 : BITMAPFILEHEADER) (hopen : host.fopenRead = some f) (h54 : 54 ≤ f.length)
    (hmagic : (decodeFileHeader (f.take 14)).bfType = 0x4D42)
    (hn : (decodeInfoHeader ((f.drop 14).take 40)).biSizeImage = 0)
    (hmalloc : host.malloc 0 = true) :
    ∃ r, LoadBitmapFile host ih0 fh0 = .ok r ∧ r.ret = some [] ∧ r.ret ≠ none ∧
      r.swapIterations = 0 := by
  have h := LoadBitmapFile_success host f ih0 fh0 0 hopen h54 hmagic (by simpa using hn)
    (by decide) hmalloc
  refine ⟨_, h, ?_, by simp, rfl⟩
  have hl := freadMem_length (freshBlock host.heap 0) 0
    (fseek { content := f, pos := 54 } (decodeFileHeader (f.take 14)).bOffBits)
    (freshBlock_length _ _)
  have e := List.eq_nil_of_length_eq_zero hl
  simp only [e]
  rfl

/-- C9, an instance: a file of the two headers alone. -/
theorem load_zero_size_image_witness :
    (hostWith emptyImageFile).fopenRead = some emptyImageFile ∧ 54 ≤ emptyImageFile.length ∧
      (decodeFileHeader (emptyImageFile.take 14)).bfType = 0x4D42 ∧
      (decodeInfoHeader ((emptyImageFile.drop 14).take 40)).biSizeImage = 0 ∧
      (hostWith emptyImageFile).malloc 0 = true ∧
      ∃ r, LoadBitmapFile (hostWith emptyImageFile) zeroInfoHeader zeroFileHeader = .ok r ∧
        r.ret = some [] ∧ r.ret ≠ none ∧ r.swapIterations = 0 :=
  ⟨rfl, by decide, by decide, by decide, rfl,
    load_zero_size_image (hostWith emptyImageFile) emptyImageFile zeroInfoHeader
      zeroFileHeader rfl (by decide) (by decide) (by decide) rfl⟩

/-- C10: for every buffer `p` whose length `n = biSizeImage` is a non-negative
multiple of 3, the swap loop returns a buffer `q` of the same length with
`q[3k] = p[3k+2]`, `q[3k+1] = p[3k+1]` and `q[3k+2] = p[3k]` for every
`k < n/3`; it makes `n/3` passes. -/
theorem swap_loop_reorders_channels (p : List Nat) (n : Nat) (hlen : p.length = n)
    (h3 : n % 3 = 0) (hmax : n ≤ INT_MAX) :
    ∃ s, swapChannels (n : Int) p = .ok s ∧ s.bitmapImage.length = n ∧ s.iterations = n / 3 ∧
      ∀ k, k < n / 3 →
        s.bitmapImage[3 * k]? = p[3 * k + 2]? ∧ s.bitmapImage[3 * k + 1]? = p[3 * k + 1]? ∧
          s.bitmapImage[3 * k + 2]? = p[3 * k]? ∧ p[3 * k + 1]? ≠ none := by
  subst hlen
  refine ⟨_, swapChannels_eq p h3 hmax, swapTriples_length p, rfl, ?_⟩
  intro k hk
  have hk2 : 3 * k + 2 < p.length := by omega
  obtain ⟨h0, h1, h2⟩ := swapTriples_getElem? p k hk2
  refine ⟨h0, h1, h2, ?_⟩
  rw [List.getElem?_eq_getElem (by omega)]
  simp

/-- C10, an instance: two pixels. -/
theorem swap_loop_reorders_channels_witness :
    [1, 2, 3, 4, 5, 6].length = 6 ∧ 6 % 3 = 0 ∧ 6 ≤ INT_MAX ∧
      ∃ s, swapChannels ((6 : Nat) : Int) [1, 2, 3, 4, 5, 6] = .ok s ∧
        s.bitmapImage.length = 6 ∧ s.iterations = 6 / 3 ∧
        ∀ k, k < 6 / 3 →
          s.bitmapImage[3 * k]? = [1, 2, 3, 4, 5, 6][3 * k + 2]? ∧
            s.bitmapImage[3 * k + 1]? = [1, 2, 3, 4, 5, 6][3 * k + 1]? ∧
            s.bitmapImage[3 * k + 2]? = [1, 2, 3, 4, 5, 6][3 * k]? ∧
            [1, 2, 3, 4, 5, 6][3 * k + 1]? ≠ none :=
  ⟨rfl, by decide, by decide,
    swap_loop_reorders_channels [1, 2, 3, 4, 5, 6] 6 rfl (by decide) (by decide)⟩

/-! ## The field laws of gmult -/

theorem gmult_xor_left (x y b : Nat) : gmult (x ^^^ y) b = gmult x b ^^^ gmult y b :=
  gmult_linear_left b x y

theorem gmult_xor_right (a x y : Nat) : gmult a (x ^^^ y) = gmult a x ^^^ gmult a y :=
  gmult_linear_right a x y

theorem gmult_zero_right (a : Nat) : gmult a 0 = 0 :=
  gmultLoop_b_zero 8 0 a

theorem gmult_zero_left (b : Nat) : gmult 0 b = 0 :=
  (gmult_linear_left b).map_zero

theorem gmult_one_right (a : Nat) : gmult a 1 = a := by
  have h : gmultBody { p := 0, a := a, b := 1 } = { p := a, a := xtime a, b := 0 } := by
    rw [gmultBody_eq]
    simp
  show (gmultLoop 7 (gmultBody { p := 0, a := a, b := 1 })).p = a
  rw [h]
  exact gmultLoop_b_zero 7 a (xtime a)

theorem gmult_comm_aux (a b : Nat) (ha : a < 256) (hb : b < 256) : gmult a b = gmult b a :=
  bilinear_ext (f := gmult) (g := fun a b => gmult b a)
    gmult_linear_left gmult_linear_right gmult_linear_right gmult_linear_left
    gmult_basis_comm a b ha hb

theorem gmult_one_left (b : Nat) (hb : b < 256) : gmult 1 b = b := by
  rw [gmult_comm_aux 1 b (by norm_num) hb, gmult_one_right]

theorem gmult_basis_assoc :
    ∀ i, i < 8 → ∀ j, j < 8 → ∀ k, k < 8 →
      gmult (gmult (2 ^ i) (2 ^ j)) (2 ^ k) = gmult (2 ^ i) (gmult (2 ^ j) (2 ^ k)) := by
  decide

theorem gmult_assoc_aux (a b c : Nat) (ha : a < 256) (hb : b < 256) (hc : c < 256) :
    gmult (gmult a b) c = gmult a (gmult b c) := by
  refine xorLinear_ext (f := fun a => gmult (gmult a b) c) (g := fun a => gmult a (gmult b c))
    ?_ ?_ ?_ a ha
  · intro x y
    show gmult (gmult (x ^^^ y) b) c = gmult (gmult x b) c ^^^ gmult (gmult y b) c
    rw [gmult_xor_left, gmult_xor_left]
  · intro x y
    exact gmult_xor_left x y (gmult b c)
  · intro i hi
    refine xorLinear_ext (f := fun b => gmult (gmult (2 ^ i) b) c)
      (g := fun b => gmult (2 ^ i) (gmult b c)) ?_ ?_ ?_ b hb
    · intro x y
      show gmult (gmult (2 ^ i) (x ^^^ y)) c =
        gmult (gmult (2 ^ i) x) c ^^^ gmult (gmult (2 ^ i) y) c
      rw [gmult_xor_right, gmult_xor_left]
    · intro x y
      show gmult (2 ^ i) (gmult (x ^^^ y) c) =
        gmult (2 ^ i) (gmult x c) ^^^ gmult (2 ^ i) (gmult y c)
      rw [gmult_xor_left, gmult_xor_right]
    · intro j hj
      refine xorLinear_ext (f := fun c => gmult (gmult (2 ^ i) (2 ^ j)) c)
        (g := fun c => gmult (2 ^ i) (gmult (2 ^ j) c)) ?_ ?_ ?_ c hc
      · intro x y
        exact gmult_xor_right _ x y
      · intro x y
        show gmult (2 ^ i) (gmult (2 ^ j) (x ^^^ y)) =
          gmult (2 ^ i) (gmult (2 ^ j) x) ^^^ gmult (2 ^ i) (gmult (2 ^ j) y)
        rw [gmult_xor_right, gmult_xor_right]
      · intro k hk
        exact gmult_basis_assoc i hi j hj k hk

theorem gmult_ginv (a : Nat) (h0 : a ≠ 0) (ha : a < 256) :
    gmult a (ginv a) = 1 ∧ ginv a < 256 := by
  interval_cases a <;> first | exact absurd rfl h0 | exact ⟨by decide, by decide⟩

theorem xor_eq_zero_imp (x y : Nat) (h : x ^^^ y = 0) : x = y := by
  have h2 : (x ^^^ y) ^^^ y = 0 ^^^ y := by rw [h]
  rw [xor_cancel_right, Nat.zero_xor] at h2
  exact h2

theorem gmult_eq_zero_aux (a b : Nat) (ha : a < 256) (hb : b < 256) (h0 : a ≠ 0)
    (h : gmult a b = 0) : b = 0 := by
  obtain ⟨hinv, hlt⟩ := gmult_ginv a h0 ha
  have h1 : gmult (gmult (ginv a) a) b = gmult (ginv a) (gmult a b) :=
    gmult_assoc_aux (ginv a) a b hlt ha hb
  rw [gmult_comm_aux (ginv a) a hlt ha, hinv, gmult_one_left b hb, h, gmult_zero_right] at h1
  exact h1

/-! ## Products of words -/

theorem fin4_ext (f g : Fin 4 → Nat) (h0 : f 0 = g 0) (h1 : f 1 = g 1) (h2 : f 2 = g 2)
    (h3 : f 3 = g 3) : f = g := by
  funext i
  fin_cases i
  · exact h0
  · exact h1
  · exact h2
  · exact h3

theorem coef_mult_zero (a b : Fin 4 → Nat) : coef_mult a b 0 =
    gmult (a 0) (b 0) ^^^ gmult (a 3) (b 1) ^^^ gmult (a 2) (b 2) ^^^ gmult (a 1) (b 3) := rfl

theorem coef_mult_one (a b : Fin 4 → Nat) : coef_mult a b 1 =
    gmult (a 1) (b 0) ^^^ gmult (a 0) (b 1) ^^^ gmult (a 3) (b 2) ^^^ gmult (a 2) (b 3) := rfl

theorem coef_mult_two (a b : Fin 4 → Nat) : coef_mult a b 2 =
    gmult (a 2) (b 0) ^^^ gmult (a 1) (b 1) ^^^ gmult (a 0) (b 2) ^^^ gmult (a 3) (b 3) := rfl

theorem coef_mult_three (a b : Fin 4 → Nat) : coef_mult a b 3 =
    gmult (a 3) (b 0) ^^^ gmult (a 2) (b 1) ^^^ gmult (a 1) (b 2) ^^^ gmult (a 0) (b 3) := rfl

/-- The product of words is associative on words of bytes. -/
theorem coef_mult_assoc (a b w : Fin 4 → Nat) (ha : ∀ i, a i < 256) (hb : ∀ i, b i < 256)
    (hw : ∀ i, w i < 256) :
    coef_mult a (coef_mult b w) = coef_mult (coef_mult a b) w := by
  have hassoc : ∀ i j k, gmult (a i) (gmult (b j) (w k)) = gmult (gmult (a i) (b j)) (w k) :=
    fun i j k => (gmult_assoc_aux _ _ _ (ha i) (hb j) (hw k)).symm
  apply fin4_ext <;>
    simp only [coef_mult_zero, coef_mult_one, coef_mult_two, coef_mult_three] <;>
    simp only [gmult_xor_right] <;>
    simp only [gmult_xor_left] <;>
    simp only [hassoc] <;>
    ac_rfl

theorem coef_mult_unit (w : Fin 4 → Nat) (hw : ∀ i, w i < 256) :
    coef_mult ![0x01, 0x00, 0x00, 0x00] w = w := by
  apply fin4_ext <;>
    simp [coef_mult_zero, coef_mult_one, coef_mult_two, coef_mult_three, gmult_zero_left,
      gmult_one_left _ (hw _)]

theorem invMix_mix : coef_mult invMixWord mixWord = ![0x01, 0x00, 0x00, 0x00] := by
  decide

theorem coef_mult_invMix_mix (w : Fin 4 → Nat) (hw : ∀ i, w i < 256) :
    coef_mult invMixWord (coef_mult mixWord w) = w := by
  rw [coef_mult_assoc invMixWord mixWord w (by decide) (by decide) hw, invMix_mix,
    coef_mult_unit w hw]

/-! ## The indices of the swap loop -/

theorem mem_swapIndices (N : Nat) (fuel idx i : Nat) :
    i ∈ swapIndices (N : Int) fuel idx ↔
      ∃ k, k < fuel ∧ idx + 3 * k < N ∧ (i = idx + 3 * k ∨ i = idx + 3 * k + 2) := by
  induction fuel generalizing idx with
  | zero => simp [swapIndices]
  | succ fuel ih =>
    by_cases hlt : idx < N
    · have hc : ((idx : Nat) : Int) < (N : Int) := by omega
      simp only [swapIndices, hc, if_true, List.mem_cons, ih]
      constructor
      · rintro (h | h | ⟨k, hk, hkN, hki⟩)
        · exact ⟨0, by omega, by omega, Or.inl (by omega)⟩
        · exact ⟨0, by omega, by omega, Or.inr (by omega)⟩
        · exact ⟨k + 1, by omega, by omega, by omega⟩
      · rintro ⟨k, hk, hkN, hki⟩
        cases k with
        | zero => omega
        | succ k => exact Or.inr (Or.inr ⟨k, by omega, by omega, by omega⟩)
    · have hc : ¬ ((idx : Nat) : Int) < (N : Int) := by omega
      simp only [swapIndices, hc, if_false, List.not_mem_nil, false_iff]
      rintro ⟨k, _, hkN, _⟩
      omega

theorem getLast?_cons_of_some (a x : Nat) (l : List Nat) (h : l.getLast? = some x) :
    (a :: l).getLast? = some x := by
  cases l with
  | nil => simp at h
  | cons b l => rw [List.getLast?_cons_cons]; exact h

theorem swapIndices_getLast? (N : Nat) (fuel idx : Nat) (hlt : idx < N)
    (hfuel : N ≤ idx + 3 * fuel) :
    (swapIndices (N : Int) fuel idx).getLast? = some (idx + 3 * ((N - idx - 1) / 3) + 2) := by
  induction fuel generalizing idx with
  | zero => omega
  | succ fuel ih =>
    have hc : ((idx : Nat) : Int) < (N : Int) := by omega
    simp only [swapIndices, hc, if_true]
    by_cases h3 : idx + 3 < N
    · have h := ih (idx + 3) h3 (by omega)
      have e : idx + 3 + 3 * ((N - (idx + 3) - 1) / 3) + 2 =
          idx + 3 * ((N - idx - 1) / 3) + 2 := by omega
      rw [e] at h
      exact getLast?_cons_of_some _ _ _ (getLast?_cons_of_some _ _ _ h)
    · have hnil : swapIndices (N : Int) fuel (idx + 3) = [] := by
        cases fuel with
        | zero => rfl
        | succ fuel =>
          have hc3 : ¬ (((idx + 3 : Nat) : Int) < (N : Int)) := by omega
          simp only [swapIndices, hc3, if_false]
      rw [hnil]
      have e : (N - idx - 1) / 3 = 0 := by omega
      simp [e]

/-- An incomplete last triplet makes the loop index past the block. -/
theorem swapLoop_short (fuel : Nat) (done rest tail : List Nat) (it : Nat)
    (h3 : rest.length % 3 = 0) (ht : tail.length = 1 ∨ tail.length = 2)
    (hfuel : rest.length + 3 ≤ 3 * fuel)
    (hmax : done.length + rest.length + tail.length < INT_MAX) :
    swapLoop ((done.length + rest.length + tail.length : Nat) : Int) fuel
        { imageIdx := done.length, bitmapImage := done ++ (rest ++ tail), iterations := it } =
      .error (.outOfBounds (done.length + rest.length + 2)
        (done.length + rest.length + tail.length)) := by
  induction fuel generalizing done rest it with
  | zero => omega
  | succ fuel ih =>
    match rest, h3, hfuel, hmax with
    | [], _, _, hmax =>
      simp only [List.length_nil, Nat.add_zero] at hmax ⊢
      have hlt : ((done.length : Nat) : Int) < ((done.length + tail.length : Nat) : Int) := by
        omega
      have hm2 : ¬ INT_MAX < done.length + 2 := by omega
      have g0 : ∃ x, (done ++ ([] ++ tail))[done.length]? = some x := by
        have hin : done.length < (done ++ ([] ++ tail)).length := by
          simp
          omega
        exact ⟨_, List.getElem?_eq_getElem hin⟩
      have g2 : (done ++ ([] ++ tail))[done.length + 2]? = none := by
        rw [List.nil_append, List.getElem?_append_right (by omega)]
        simp
        omega
      obtain ⟨x, g0⟩ := g0
      simp only [swapLoop, hlt, if_true, hm2, if_false, g0, g2, List.length_append,
        List.length_nil, Nat.zero_add]
    | [_], h3, _, _ => simp at h3
    | [_, _], h3, _, _ => simp at h3
    | x :: y :: z :: rest', h3, hfuel, hmax =>
      simp only [List.length_cons] at h3 hfuel hmax ⊢
      have hlt : ((done.length : Nat) : Int) <
          ((done.length + (rest'.length + 1 + 1 + 1) + tail.length : Nat) : Int) := by
        omega
      have hm2 : ¬ INT_MAX < done.length + 2 := by omega
      have hm3 : ¬ INT_MAX < done.length + 3 := by omega
      have g0 : (done ++ (x :: y :: z :: rest' ++ tail))[done.length]? = some x := by
        rw [List.getElem?_append_right (by omega)]
        simp
      have g2 : (done ++ (x :: y :: z :: rest' ++ tail))[done.length + 2]? = some z := by
        rw [List.getElem?_append_right (by omega)]
        simp
      have hset : ((done ++ (x :: y :: z :: rest' ++ tail)).set done.length z).set
          (done.length + 2) x = (done ++ [z, y, x]) ++ (rest' ++ tail) := by
        simp [List.set_append]
      have ih' := ih (done ++ [z, y, x]) rest' (it + 1) (by omega) (by omega)
        (by simp; omega)
      simp only [swapLoop, hlt, if_true, hm2, if_false, g0, g2, hm3, hset]
      have e1 : (done ++ [z, y, x]).length = done.length + 3 := by simp
      rw [e1] at ih'
      have e2 : done.length + 3 + rest'.length + tail.length =
          done.length + (rest'.length + 1 + 1 + 1) + tail.length := by omega
      have e3 : done.length + 3 + rest'.length + 2 =
          done.length + (rest'.length + 1 + 1 + 1) + 2 := by omega
      rw [e2, e3] at ih'
      exact ih'

theorem swapChannels_short (p : List Nat) (h3 : p.length % 3 ≠ 0)
    (hmax : p.length < INT_MAX) :
    swapChannels (p.length : Int) p =
      .error (.outOfBounds (3 * (p.length / 3) + 2) p.length) := by
  have hsplit : p = [] ++ (p.take (3 * (p.length / 3)) ++ p.drop (3 * (p.length / 3))) := by
    simp
  have hl1 : (p.take (3 * (p.length / 3))).length = 3 * (p.length / 3) := by
    simp
    omega
  have hl2 : (p.drop (3 * (p.length / 3))).length = p.length % 3 := by
    simp
    omega
  have h := swapLoop_short p.length [] (p.take (3 * (p.length / 3)))
    (p.drop (3 * (p.length / 3))) 0 (by rw [hl1]; omega) (by rw [hl2]; omega)
    (by rw [hl1]; omega) (by rw [hl1, hl2]; simp; omega)
  rw [← hsplit, hl1, hl2] at h
  simp only [List.length_nil, Nat.zero_add] at h
  have e : 3 * (p.length / 3) + p.length % 3 = p.length := by omega
  rw [e] at h
  simpa [swapChannels] using h

/-- The fuel given to the loop is never used up. -/
theorem swapLoop_ne_fuel (N : Int) (fuel : Nat) (s : SwapState)
    (h : N ≤ (s.imageIdx : Int) + 3 * (fuel : Int)) : swapLoop N fuel s ≠ .error .fuel := by
  induction fuel generalizing s with
  | zero =>
    have hc : ¬ ((s.imageIdx : Int) < N) := by omega
    simp [swapLoop, hc]
  | succ fuel ih =>
    unfold swapLoop
    split
    · split
      · simp
      · split
        · simp
        · simp
        · split
          · simp
          · apply ih
            simp only [Nat.cast_add, Nat.cast_ofNat]
            omega
    · simp

theorem swapChannels_ne_fuel (N : Int) (p : List Nat) : swapChannels N p ≠ .error .fuel := by
  unfold swapChannels
  apply swapLoop_ne_fuel
  simp only [Nat.cast_zero, zero_add]
  omega

/-- The loop ends by returning, by an access outside the block or by an
overflow of `imageIdx`. -/
theorem swapLoop_error (N : Int) (fuel : Nat) (s : SwapState) (e : Halt)
    (h : swapLoop N fuel s = .error e) :
    e = .fuel ∨ e = .intOverflow ∨ ∃ i n, e = .outOfBounds i n := by
  induction fuel generalizing s with
  | zero =>
    unfold swapLoop at h
    split at h
    · simp at h
      exact Or.inl h.symm
    · simp at h
  | succ fuel ih =>
    unfold swapLoop at h
    split at h
    · split at h
      · simp at h
        exact Or.inr (Or.inl h.symm)
      · split at h
        · simp at h
          exact Or.inr (Or.inr ⟨_, _, h.symm⟩)
        · simp at h
          exact Or.inr (Or.inr ⟨_, _, h.symm⟩)
        · split at h
          · simp at h
            exact Or.inr (Or.inl h.symm)
          · exact ih _ h
    · simp at h

theorem swapChannels_error (N : Int) (p : List Nat) (e : Halt)
    (h : swapChannels N p = .error e) : e = .intOverflow ∨ ∃ i n, e = .outOfBounds i n := by
  rcases swapLoop_error N _ _ e h with h1 | h1
  · exact absurd (h1 ▸ h) (swapChannels_ne_fuel N p)
  · exact h1

/-! ## Every way out of `LoadBitmapFile` -/

theorem LoadBitmapFile_tag_mismatch (host : Host) (f : List Nat) (ih0 : BITMAPINFOHEADER)
    (fh0 : BITMAPFILEHEADER) (hopen : host.fopenRead = some f)
    (htag : (decodeFileHeader
      (freadMem (encodeFileHeader fh0) 14 { content := f, pos := 0 })).bfType ≠ 0x4D42) :
    LoadBitmapFile host ih0 fh0 =
      .ok { ret := none
            bitmapInfoHeader := ih0
            bitmapFileHeader :=
              decodeFileHeader (freadMem (encodeFileHeader fh0) 14 { content := f, pos := 0 })
            trace := [.fopen true, .fread 14 (freadBytes 14 { content := f, pos := 0 }).length,
              .fclose]
            swapIterations := 0 } := by
  simp only [LoadBitmapFile, hopen, htag, ne_eq, not_false_eq_true, if_true,
    List.cons_append, List.nil_append]

theorem LoadBitmapFile_malloc_failure (host : Host) (f : List Nat) (ih0 : BITMAPINFOHEADER)
    (fh0 : BITMAPFILEHEADER) (hopen : host.fopenRead = some f)
    (htag : (decodeFileHeader
      (freadMem (encodeFileHeader fh0) 14 { content := f, pos := 0 })).bfType = 0x4D42)
    (hmalloc : host.malloc (toSizeT (decodeInfoHeader (freadMem (encodeInfoHeader ih0) 40
      (freadFile 14 { content := f, pos := 0 }))).biSizeImage) = false) :
    ∃ r, LoadBitmapFile host ih0 fh0 = .ok r ∧ r.ret = none ∧ blocksAllocated r.trace = 0 ∧
      openHandles r.trace = 0 ∧ mallocCalls r.trace = 1 := by
  simp only [LoadBitmapFile, hopen, htag, hmalloc, ne_eq, not_true_eq_false, if_false,
    List.cons_append, List.nil_append, Bool.false_eq_true]
  exact ⟨_, rfl, rfl, rfl, rfl, rfl⟩

theorem LoadBitmapFile_returns_closed (host : Host) (ih0 : BITMAPINFOHEADER)
    (fh0 : BITMAPFILEHEADER) (r : LoadResult) (h : LoadBitmapFile host ih0 fh0 = .ok r) :
    openHandles r.trace = 0 := by
  unfold LoadBitmapFile at h
  split at h
  · simp only [Except.ok.injEq] at h
    subst h
    rfl
  · simp only at h
    split at h
    · simp only [Except.ok.injEq] at h
      subst h
      rfl
    · split at h
      · simp only [Except.ok.injEq] at h
        subst h
        rfl
      · split at h
        · simp at h
        · simp only [Except.ok.injEq] at h
          subst h
          rfl

theorem LoadBitmapFile_halts (host : Host) (ih0 : BITMAPINFOHEADER)
    (fh0 : BITMAPFILEHEADER) (e : Halt) (h : LoadBitmapFile host ih0 fh0 = .error e) :
    e = .intOverflow ∨ ∃ i n, e = .outOfBounds i n := by
  unfold LoadBitmapFile at h
  split at h
  · simp at h
  · simp only at h
    split at h
    · simp at h
    · split at h
      · simp at h
      · split at h
        · rename_i e2 hsw
          simp only [Except.error.injEq] at h
          subst h
          exact swapChannels_error _ _ _ hsw
        · simp at h

/-! ## What a successful load returns -/

theorem bfType_of_tag (f : List Nat) (htag : f.take 2 = [0x42, 0x4D]) :
    (decodeFileHeader (f.take 14)).bfType = 0x4D42 := by
  have e : (decodeFileHeader (f.take 14)).bfType = decodeWORD (f.take 14) := rfl
  rw [e]
  unfold decodeWORD
  rw [List.take_take]
  have e2 : min 2 14 = 2 := rfl
  rw [e2, htag]
  decide

theorem fseek_natCast (f : List Nat) (pos off : Nat) :
    fseek { content := f, pos := pos } (off : Int) = { content := f, pos := off } := by
  have h : ¬ ((off : Int) < 0) := by omega
  simp [fseek, h]

theorem getElem?_drop_add (f : List Nat) (off i : Nat) : (f.drop off)[i]? = f[off + i]? := by
  rw [List.getElem?_drop]

/-! ## The claims of the specification, continued -/

/-- C11: for every buffer whose length `biSizeImage` is a multiple of 3,
`ReloadBitmapFile` leaves the caller's buffer channel-swapped, which differs
from the original whenever some triplet has different first and third bytes,
and a second call with the same headers leaves it equal, byte for byte, to
the original. -/
theorem reload_swaps_buffer_and_twice_restores (host : Host) (p : List Nat)
    (fh : BITMAPFILEHEADER) (ih : BITMAPINFOHEADER) (hw : host.fopenWrite = true)
    (hn : ih.biSizeImage = (p.length : Int)) (h3 : p.length % 3 = 0)
    (hmax : p.length ≤ INT_MAX) :
    ∃ w1 w2, ReloadBitmapFile host p fh ih = .ok w1 ∧ w1.bitmapImage = swapTriples p ∧
      (∀ k, k < p.length / 3 →
        w1.bitmapImage[3 * k]? = p[3 * k + 2]? ∧ w1.bitmapImage[3 * k + 1]? = p[3 * k + 1]? ∧
          w1.bitmapImage[3 * k + 2]? = p[3 * k]?) ∧
      ((∃ k, k < p.length / 3 ∧ p[3 * k]? ≠ p[3 * k + 2]?) → w1.bitmapImage ≠ p) ∧
      ReloadBitmapFile host w1.bitmapImage fh ih = .ok w2 ∧ w2.bitmapImage = p := by
  have h1 := ReloadBitmapFile_success host p fh ih hw hn h3 hmax
  have hl : (swapTriples p).length = p.length := swapTriples_length p
  have h2 := ReloadBitmapFile_success host (swapTriples p) fh ih hw (by rw [hl]; exact hn)
    (by rw [hl]; exact h3) (by rw [hl]; exact hmax)
  rw [swapTriples_involutive] at h2
  refine ⟨_, _, h1, rfl, ?_, ?_, h2, rfl⟩
  · intro k hk
    exact swapTriples_getElem? p k (by omega)
  · rintro ⟨k, hk, hne⟩ heq
    have h0 := (swapTriples_getElem? p k (by omega)).1
    have heq2 : swapTriples p = p := heq
    rw [heq2] at h0
    exact hne h0

/-- C11, an instance: two pixels, stored twice. -/
theorem reload_swaps_buffer_and_twice_restores_witness :
    (hostWith []).fopenWrite = true ∧
      ({ zeroInfoHeader with biSizeImage := 6 } : BITMAPINFOHEADER).biSizeImage =
        (([1, 2, 3, 4, 5, 6] : List Nat).length : Int) ∧
      ([1, 2, 3, 4, 5, 6] : List Nat).length % 3 = 0 ∧
      ([1, 2, 3, 4, 5, 6] : List Nat).length ≤ INT_MAX ∧
      ∃ w1 w2, ReloadBitmapFile (hostWith []) [1, 2, 3, 4, 5, 6] zeroFileHeader
          { zeroInfoHeader with biSizeImage := 6 } = .ok w1 ∧
        w1.bitmapImage = swapTriples [1, 2, 3, 4, 5, 6] ∧
        (∀ k, k < ([1, 2, 3, 4, 5, 6] : List Nat).length / 3 →
          w1.bitmapImage[3 * k]? = ([1, 2, 3, 4, 5, 6] : List Nat)[3 * k + 2]? ∧
            w1.bitmapImage[3 * k + 1]? = ([1, 2, 3, 4, 5, 6] : List Nat)[3 * k + 1]? ∧
            w1.bitmapImage[3 * k + 2]? = ([1, 2, 3, 4, 5, 6] : List Nat)[3 * k]?) ∧
        ((∃ k, k < ([1, 2, 3, 4, 5, 6] : List Nat).length / 3 ∧
            ([1, 2, 3, 4, 5, 6] : List Nat)[3 * k]? ≠
              ([1, 2, 3, 4, 5, 6] : List Nat)[3 * k + 2]?) →
          w1.bitmapImage ≠ [1, 2, 3, 4, 5, 6]) ∧
        ReloadBitmapFile (hostWith []) w1.bitmapImage zeroFileHeader
          { zeroInfoHeader with biSizeImage := 6 } = .ok w2 ∧
        w2.bitmapImage = [1, 2, 3, 4, 5, 6] :=
  ⟨rfl, by decide, by decide, by decide,
    reload_swaps_buffer_and_twice_restores (hostWith []) [1, 2, 3, 4, 5, 6] zeroFileHeader
      { zeroInfoHeader with biSizeImage := 6 } rfl (by decide) (by decide) (by decide)⟩

/-- C12: when the destination opens, for every pair of header records and
every buffer `p` of length `n = biSizeImage`, `n` a non-negative multiple of 3,
the file written is the 14 bytes of the file header, then the 40 bytes of the
info header, then the `n` channel-swapped bytes of `p`; its length is `54 + n`
and the pixel data starts at offset 54 whatever `bOffBits` is. -/
theorem reload_writes_headers_then_pixels (host : Host) (p : List Nat)
    (fh : BITMAPFILEHEADER) (ih : BITMAPINFOHEADER) (hw : host.fopenWrite = true)
    (hn : ih.biSizeImage = (p.length : Int)) (h3 : p.length % 3 = 0)
    (hmax : p.length ≤ INT_MAX) :
    ∃ w, ReloadBitmapFile host p fh ih = .ok w ∧
      w.written = encodeFileHeader fh ++ encodeInfoHeader ih ++ swapTriples p ∧
      (encodeFileHeader fh).length = 14 ∧ (encodeInfoHeader ih).length = 40 ∧
      w.written.length = 54 + p.length ∧ w.written.take 14 = encodeFileHeader fh ∧
      (w.written.drop 14).take 40 = encodeInfoHeader ih ∧
      w.written.drop 54 = swapTriples p := by
  have h1 := ReloadBitmapFile_success host p fh ih hw hn h3 hmax
  have l1 := encodeFileHeader_length fh
  have l2 := encodeInfoHeader_length ih
  refine ⟨_, h1, rfl, l1, l2, ?_, ?_, ?_, ?_⟩
  · simp only [List.length_append, l1, l2, swapTriples_length]
  · rw [List.append_assoc, List.take_append_of_le_length (by omega),
      List.take_of_length_le (by omega)]
  · rw [List.append_assoc, List.drop_append_of_le_length (by omega),
      List.drop_of_length_le (by omega), List.nil_append,
      List.take_append_of_le_length (by omega), List.take_of_length_le (by omega)]
  · have hl : (encodeFileHeader fh ++ encodeInfoHeader ih).length = 54 := by
      rw [List.length_append, l1, l2]
    rw [List.drop_append_of_le_length (by omega), List.drop_of_length_le (by omega),
      List.nil_append]

/-- C12, an instance: headers that announce an offset of 58 and two pixels. -/
theorem reload_writes_headers_then_pixels_witness :
    (hostWith []).fopenWrite = true ∧
      ({ zeroInfoHeader with biSizeImage := 6 } : BITMAPINFOHEADER).biSizeImage =
        (([1, 2, 3, 4, 5, 6] : List Nat).length : Int) ∧
      ([1, 2, 3, 4, 5, 6] : List Nat).length % 3 = 0 ∧
      ([1, 2, 3, 4, 5, 6] : List Nat).length ≤ INT_MAX ∧
      ∃ w, ReloadBitmapFile (hostWith []) [1, 2, 3, 4, 5, 6]
          { zeroFileHeader with bOffBits := 58 } { zeroInfoHeader with biSizeImage := 6 } =
            .ok w ∧
        w.written = encodeFileHeader { zeroFileHeader with bOffBits := 58 } ++
          encodeInfoHeader { zeroInfoHeader with biSizeImage := 6 } ++
          swapTriples [1, 2, 3, 4, 5, 6] ∧
        (encodeFileHeader { zeroFileHeader with bOffBits := 58 }).length = 14 ∧
        (encodeInfoHeader { zeroInfoHeader with biSizeImage := 6 }).length = 40 ∧
        w.written.length = 54 + ([1, 2, 3, 4, 5, 6] : List Nat).length ∧
        w.written.take 14 = encodeFileHeader { zeroFileHeader with bOffBits := 58 } ∧
        (w.written.drop 14).take 40 = encodeInfoHeader { zeroInfoHeader with biSizeImage := 6 } ∧
        w.written.drop 54 = swapTriples [1, 2, 3, 4, 5, 6] :=
  ⟨rfl, by decide, by decide, by decide,
    reload_writes_headers_then_pixels (hostWith []) [1, 2, 3, 4, 5, 6]
      { zeroFileHeader with bOffBits := 58 } { zeroInfoHeader with biSizeImage := 6 } rfl
      (by decide) (by decide) (by decide)⟩

/-- C13: for every file that holds both headers and starts with the tag, with
`bOffBits = off` not negative and `biSizeImage = n` a non-negative multiple of
3, and that holds at least `off + n` bytes, `LoadBitmapFile` (the block being
allocated) leaves in the file header record the decoding of bytes 0..13, in
the info header record the decoding of bytes 14..53, and returns a block of
length `n` equal to the channel swap of the file bytes `off .. off + n - 1`. -/
theorem load_returns_headers_and_swapped_pixels (host : Host) (f : List Nat)
    (ih0 : BITMAPINFOHEADER) (fh0 : BITMAPFILEHEADER) (n off : Nat)
    (hopen : host.fopenRead = some f) (h54 : 54 ≤ f.length)
    (htag : f.take 2 = [0x42, 0x4D])
    (hoff : (decodeFileHeader (f.take 14)).bOffBits = (off : Int))
    (hn : (decodeInfoHeader ((f.drop 14).take 40)).biSizeImage = (n : Int))
    (h3 : n % 3 = 0) (hhold : off + n ≤ f.length) (hmalloc : host.malloc n = true) :
    ∃ r buf, LoadBitmapFile host ih0 fh0 = .ok r ∧
      r.bitmapFileHeader = decodeFileHeader (f.take 14) ∧
      r.bitmapInfoHeader = decodeInfoHeader ((f.drop 14).take 40) ∧
      r.ret = some buf ∧ buf.length = n ∧ buf = swapTriples ((f.drop off).take n) ∧
      ∀ k, k < n / 3 →
        buf[3 * k]? = f[off + (3 * k + 2)]? ∧ buf[3 * k + 1]? = f[off + (3 * k + 1)]? ∧
          buf[3 * k + 2]? = f[off + 3 * k]? := by
  have h := LoadBitmapFile_success host f ih0 fh0 n hopen h54 (bfType_of_tag f htag) hn h3
    hmalloc
  rw [hoff, fseek_natCast] at h
  have hpix : freadMem (freshBlock host.heap n) n { content := f, pos := off } =
      (f.drop off).take n :=
    freadMem_full _ _ _ (freshBlock_length _ _) hhold
  rw [hpix] at h
  have hlen : ((f.drop off).take n).length = n := by
    simp
    omega
  refine ⟨_, _, h, rfl, rfl, rfl, ?_, rfl, ?_⟩
  · rw [swapTriples_length, hlen]
  · intro k hk
    obtain ⟨h0, h1, h2⟩ := swapTriples_getElem? ((f.drop off).take n) k (by rw [hlen]; omega)
    rw [h0, h1, h2, List.getElem?_take_of_lt (by omega), List.getElem?_take_of_lt (by omega),
      List.getElem?_take_of_lt (by omega), getElem?_drop_add, getElem?_drop_add,
      getElem?_drop_add]
    exact ⟨rfl, rfl, rfl⟩

/-- C13, an instance: the file with a colour table, whose pixels start at 58. -/
theorem load_returns_headers_and_swapped_pixels_witness :
    (hostWith tableFile).fopenRead = some tableFile ∧ 54 ≤ tableFile.length ∧
      tableFile.take 2 = [0x42, 0x4D] ∧
      (decodeFileHeader (tableFile.take 14)).bOffBits = ((58 : Nat) : Int) ∧
      (decodeInfoHeader ((tableFile.drop 14).take 40)).biSizeImage = ((12 : Nat) : Int) ∧
      12 % 3 = 0 ∧ 58 + 12 ≤ tableFile.length ∧ (hostWith tableFile).malloc 12 = true ∧
      ∃ r buf, LoadBitmapFile (hostWith tableFile) zeroInfoHeader zeroFileHeader = .ok r ∧
        r.bitmapFileHeader = decodeFileHeader (tableFile.take 14) ∧
        r.bitmapInfoHeader = decodeInfoHeader ((tableFile.drop 14).take 40) ∧
        r.ret = some buf ∧ buf.length = 12 ∧ buf = swapTriples ((tableFile.drop 58).take 12) ∧
        ∀ k, k < 12 / 3 →
          buf[3 * k]? = tableFile[58 + (3 * k + 2)]? ∧
            buf[3 * k + 1]? = tableFile[58 + (3 * k + 1)]? ∧
            buf[3 * k + 2]? = tableFile[58 + 3 * k]? :=
  ⟨rfl, by decide, by decide, by decide, by decide, by decide, by decide, rfl,
    load_returns_headers_and_swapped_pixels (hostWith tableFile) tableFile zeroInfoHeader
      zeroFileHeader 12 58 rfl (by decide) (by decide) (by decide) (by decide) (by decide)
      (by decide) rfl⟩

/-- C14: for a buffer of exactly `n = biSizeImage` bytes, every index the swap
loop reads or writes is below `n` if and only if `n` is a multiple of 3; when
`n` is not a multiple of 3 the last pass touches the index `3 * (n / 3) + 2`,
which is at least `n`, and the run ends there, outside the block. When `n` is
a multiple of 3 the loop returns. -/
theorem swap_loop_in_bounds_iff_multiple_of_three (n : Nat) :
    ((∀ i ∈ swapAccesses (n : Int), i < n) ↔ n % 3 = 0) ∧
      (n % 3 ≠ 0 →
        (swapAccesses (n : Int)).getLast? = some (3 * (n / 3) + 2) ∧ n ≤ 3 * (n / 3) + 2) ∧
      (∀ p : List Nat, p.length = n → n < INT_MAX →
        (n % 3 ≠ 0 →
          swapChannels (n : Int) p = .error (.outOfBounds (3 * (n / 3) + 2) n)) ∧
        (n % 3 = 0 → ∃ s, swapChannels (n : Int) p = .ok s)) := by
  have hmem : ∀ i, i ∈ swapAccesses (n : Int) ↔
      ∃ k, k < n ∧ 0 + 3 * k < n ∧ (i = 0 + 3 * k ∨ i = 0 + 3 * k + 2) := by
    intro i
    have h := mem_swapIndices n n 0 i
    simpa [swapAccesses] using h
  refine ⟨⟨?_, ?_⟩, ?_, ?_⟩
  · intro hall
    by_contra h3
    have hin : 3 * (n / 3) + 2 ∈ swapAccesses (n : Int) :=
      (hmem _).2 ⟨n / 3, by omega, by omega, Or.inr (by omega)⟩
    have := hall _ hin
    omega
  · intro h3 i hi
    obtain ⟨k, _, hk, hik⟩ := (hmem i).1 hi
    omega
  · intro h3
    have h := swapIndices_getLast? n n 0 (by omega) (by omega)
    have e : 0 + 3 * ((n - 0 - 1) / 3) + 2 = 3 * (n / 3) + 2 := by omega
    rw [e] at h
    refine ⟨?_, by omega⟩
    simpa [swapAccesses] using h
  · intro p hp hmax
    subst hp
    refine ⟨fun h3 => swapChannels_short p h3 hmax, fun h3 => ?_⟩
    exact ⟨_, swapChannels_eq p h3 (by omega)⟩

/-- C14, an instance: a block of four bytes, the second pass touching 3 and 5. -/
theorem swap_loop_in_bounds_iff_multiple_of_three_witness :
    swapAccesses ((4 : Nat) : Int) = [0, 2, 3, 5] ∧
      swapChannels ((4 : Nat) : Int) [1, 2, 3, 4] = .error (.outOfBounds 5 4) ∧
      (((∀ i ∈ swapAccesses ((4 : Nat) : Int), i < 4) ↔ 4 % 3 = 0) ∧
        (4 % 3 ≠ 0 →
          (swapAccesses ((4 : Nat) : Int)).getLast? = some (3 * (4 / 3) + 2) ∧
            4 ≤ 3 * (4 / 3) + 2) ∧
        (∀ p : List Nat, p.length = 4 → 4 < INT_MAX →
          (4 % 3 ≠ 0 →
            swapChannels ((4 : Nat) : Int) p = .error (.outOfBounds (3 * (4 / 3) + 2) 4)) ∧
          (4 % 3 = 0 → ∃ s, swapChannels ((4 : Nat) : Int) p = .ok s))) :=
  ⟨by decide, rfl, swap_loop_in_bounds_iff_multiple_of_three 4⟩

/-- C15: on every return of `LoadBitmapFile` no stream opened by the call is
left open, and the call fails to return only by leaving the swap loop through
an access outside the block or an overflow of `imageIdx`; on each of the three
failures (the file cannot be opened, the tag does not match, the allocation
fails) it returns `NULL` holding no block and no open stream. -/
theorem load_closes_the_file_on_every_exit (host : Host) (ih0 : BITMAPINFOHEADER)
    (fh0 : BITMAPFILEHEADER) :
    (∀ r, LoadBitmapFile host ih0 fh0 = .ok r → openHandles r.trace = 0) ∧
      (∀ e, LoadBitmapFile host ih0 fh0 = .error e →
        e = .intOverflow ∨ ∃ i n, e = .outOfBounds i n) ∧
      (host.fopenRead = none →
        ∃ r, LoadBitmapFile host ih0 fh0 = .ok r ∧ r.ret = none ∧
          blocksAllocated r.trace = 0 ∧ openHandles r.trace = 0) ∧
      (∀ f, host.fopenRead = some f →
        (decodeFileHeader
          (freadMem (encodeFileHeader fh0) 14 { content := f, pos := 0 })).bfType ≠ 0x4D42 →
        ∃ r, LoadBitmapFile host ih0 fh0 = .ok r ∧ r.ret = none ∧
          blocksAllocated r.trace = 0 ∧ openHandles r.trace = 0) ∧
      (∀ f, host.fopenRead = some f →
        (decodeFileHeader
          (freadMem (encodeFileHeader fh0) 14 { content := f, pos := 0 })).bfType = 0x4D42 →
        host.malloc (toSizeT (decodeInfoHeader (freadMem (encodeInfoHeader ih0) 40
          (freadFile 14 { content := f, pos := 0 }))).biSizeImage) = false →
        ∃ r, LoadBitmapFile host ih0 fh0 = .ok r ∧ r.ret = none ∧
          blocksAllocated r.trace = 0 ∧ openHandles r.trace = 0) := by
  refine ⟨fun r h => LoadBitmapFile_returns_closed host ih0 fh0 r h,
    fun e h => LoadBitmapFile_halts host ih0 fh0 e h, ?_, ?_, ?_⟩
  · intro hopen
    exact ⟨_, LoadBitmapFile_open_failure host ih0 fh0 hopen, rfl, rfl, rfl⟩
  · intro f hopen htag
    exact ⟨_, LoadBitmapFile_tag_mismatch host f ih0 fh0 hopen htag, rfl, rfl, rfl⟩
  · intro f hopen htag hmalloc
    obtain ⟨r, hr, h1, h2, h3, _⟩ :=
      LoadBitmapFile_malloc_failure host f ih0 fh0 hopen htag hmalloc
    exact ⟨r, hr, h1, h2, h3⟩

/-- C15, an instance: the allocation fails on a well-formed file. -/
theorem load_closes_the_file_on_every_exit_witness :
    ∃ r, LoadBitmapFile (hostNoMemory plainFile) zeroInfoHeader zeroFileHeader = .ok r ∧
      r.ret = none ∧ blocksAllocated r.trace = 0 ∧ openHandles r.trace = 0 :=
  (load_closes_the_file_on_every_exit (hostNoMemory plainFile) zeroInfoHeader
    zeroFileHeader).2.2.2.2 plainFile rfl (by decide) (by decide)

/-- C16: for every file that holds both headers and starts with the tag but
holds fewer than `biSizeImage = n` bytes from offset `bOffBits = off` onward,
`n` a positive multiple of 3 and the block being allocated, `LoadBitmapFile`
still returns a block of length `n` and prints nothing, the `fread` that
transferred fewer bytes than requested going unchecked; the bytes that were
there appear channel-swapped in the triplets read in full. -/
theorem load_ignores_short_read (host : Host) (f : List Nat) (ih0 : BITMAPINFOHEADER)
    (fh0 : BITMAPFILEHEADER) (n off : Nat) (hopen : host.fopenRead = some f)
    (h54 : 54 ≤ f.length) (htag : f.take 2 = [0x42, 0x4D])
    (hoff : (decodeFileHeader (f.take 14)).bOffBits = (off : Int))
    (hn : (decodeInfoHeader ((f.drop 14).take 40)).biSizeImage = (n : Int))
    (h3 : n % 3 = 0) (hpos : 0 < n) (hshort : f.length - off < n)
    (hmalloc : host.malloc n = true) :
    ∃ r buf, LoadBitmapFile host ih0 fh0 = .ok r ∧ r.ret = some buf ∧ r.ret ≠ none ∧
      buf.length = n ∧ Event.printf ∉ r.trace ∧ Event.fread n (f.length - off) ∈ r.trace ∧
      ∀ k, 3 * k + 2 < f.length - off →
        buf[3 * k]? = f[off + (3 * k + 2)]? ∧ buf[3 * k + 1]? = f[off + (3 * k + 1)]? ∧
          buf[3 * k + 2]? = f[off + 3 * k]? := by
  have h := LoadBitmapFile_success host f ih0 fh0 n hopen h54 (bfType_of_tag f htag) hn h3
    hmalloc
  rw [hoff, fseek_natCast] at h
  have hbytes : freadBytes n { content := f, pos := off } = f.drop off := by
    simp only [freadBytes]
    exact List.take_of_length_le (by simp; omega)
  have hgot : (freadBytes n { content := f, pos := off }).length = f.length - off := by
    rw [hbytes]
    simp
  have hlen : (freadMem (freshBlock host.heap n) n { content := f, pos := off }).length = n :=
    freadMem_length _ _ _ (freshBlock_length _ _)
  rw [hgot] at h
  refine ⟨_, _, h, rfl, by simp, ?_, by simp, by simp, ?_⟩
  · rw [swapTriples_length, hlen]
  · intro k hk
    obtain ⟨h0, h1, h2⟩ := swapTriples_getElem?
      (freadMem (freshBlock host.heap n) n { content := f, pos := off }) k
      (by rw [hlen]; omega)
    have hin : ∀ i, i < f.length - off →
        (freadMem (freshBlock host.heap n) n { content := f, pos := off })[i]? =
          f[off + i]? := by
      intro i hi
      simp only [freadMem, hbytes]
      rw [List.getElem?_append_left (by simp; omega), getElem?_drop_add]
    rw [h0, h1, h2, hin _ (by omega), hin _ (by omega), hin _ (by omega)]
    exact ⟨rfl, rfl, rfl⟩

/-- C16, an instance: 12 bytes announced, 7 present; the two triplets read in
full come back swapped. -/
theorem load_ignores_short_read_witness :
    (hostWith shortFile).fopenRead = some shortFile ∧ 54 ≤ shortFile.length ∧
      shortFile.take 2 = [0x42, 0x4D] ∧
      (decodeFileHeader (shortFile.take 14)).bOffBits = ((54 : Nat) : Int) ∧
      (decodeInfoHeader ((shortFile.drop 14).take 40)).biSizeImage = ((12 : Nat) : Int) ∧
      12 % 3 = 0 ∧ 0 < 12 ∧ shortFile.length - 54 < 12 ∧
      (hostWith shortFile).malloc 12 = true ∧
      ∃ r buf, LoadBitmapFile (hostWith shortFile) zeroInfoHeader zeroFileHeader = .ok r ∧
        r.ret = some buf ∧ r.ret ≠ none ∧ buf.length = 12 ∧ Event.printf ∉ r.trace ∧
        Event.fread 12 (shortFile.length - 54) ∈ r.trace ∧
        ∀ k, 3 * k + 2 < shortFile.length - 54 →
          buf[3 * k]? = shortFile[54 + (3 * k + 2)]? ∧
            buf[3 * k + 1]? = shortFile[54 + (3 * k + 1)]? ∧
            buf[3 * k + 2]? = shortFile[54 + 3 * k]? :=
  ⟨rfl, by decide, by decide, by decide, by decide, by decide, by decide, by decide, rfl,
    load_ignores_short_read (hostWith shortFile) shortFile zeroInfoHeader zeroFileHeader 12 54
      rfl (by decide) (by decide) (by decide) (by decide) (by decide) (by decide) (by decide)
      rfl⟩

/-- C17: the column-mixing word and its inverse cancel under `coef_mult`:
their product is `[0x01, 0x00, 0x00, 0x00]`, and for every word `w` of four
bytes, multiplying by `[0x02,0x01,0x01,0x03]` and then by
`[0x0e,0x09,0x0d,0x0b]` gives back `w`. -/
theorem inv_mix_columns_undoes_mix_columns (w : Fin 4 → Nat) (hw : ∀ i, w i < 256) :
    coef_mult ![0x02, 0x01, 0x01, 0x03] ![0x0e, 0x09, 0x0d, 0x0b] =
        ![0x01, 0x00, 0x00, 0x00] ∧
      coef_mult ![0x0e, 0x09, 0x0d, 0x0b] (coef_mult ![0x02, 0x01, 0x01, 0x03] w) = w :=
  ⟨by decide, coef_mult_invMix_mix w hw⟩

/-- C17, an instance: a column of the standard. -/
theorem inv_mix_columns_undoes_mix_columns_witness :
    (∀ i, (![0xd4, 0xbf, 0x5d, 0x30] : Fin 4 → Nat) i < 256) ∧
      (coef_mult ![0x02, 0x01, 0x01, 0x03] ![0x0e, 0x09, 0x0d, 0x0b] =
          ![0x01, 0x00, 0x00, 0x00] ∧
        coef_mult ![0x0e, 0x09, 0x0d, 0x0b]
          (coef_mult ![0x02, 0x01, 0x01, 0x03] ![0xd4, 0xbf, 0x5d, 0x30]) =
            ![0xd4, 0xbf, 0x5d, 0x30]) :=
  ⟨by decide, inv_mix_columns_undoes_mix_columns ![0xd4, 0xbf, 0x5d, 0x30] (by decide)⟩

/-- C18: `coef_mult` reproduces the `MixColumns` example of FIPS-197. -/
theorem coef_mult_fips197_example :
    coef_mult ![0x02, 0x01, 0x01, 0x03] ![0xd4, 0xbf, 0x5d, 0x30] =
      ![0x04, 0x66, 0x81, 0xe5] := by
  decide

/-- C19: for all bytes `a` and `b`, `gmult(a, b) = 0` if and only if `a = 0` or
`b = 0`; and every byte `a` other than 0 has exactly one byte `c` with
`gmult(a, c) = 1`. -/
theorem gmult_no_zero_divisors_unique_inverse (a b : Nat) (ha : a < 256) (hb : b < 256) :
    (gmult a b = 0 ↔ a = 0 ∨ b = 0) ∧
      (a ≠ 0 → ∃ c, (c < 256 ∧ gmult a c = 1) ∧ ∀ d, d < 256 ∧ gmult a d = 1 → d = c) := by
  constructor
  · constructor
    · intro h
      by_cases h0 : a = 0
      · exact Or.inl h0
      · exact Or.inr (gmult_eq_zero_aux a b ha hb h0 h)
    · rintro (h | h)
      · rw [h]
        exact gmult_zero_left b
      · rw [h]
        exact gmult_zero_right a
  · intro h0
    obtain ⟨hinv, hlt⟩ := gmult_ginv a h0 ha
    refine ⟨ginv a, ⟨hlt, hinv⟩, ?_⟩
    rintro d ⟨hd, hd1⟩
    have hx : gmult a (d ^^^ ginv a) = 0 := by
      rw [gmult_xor_right, hd1, hinv, Nat.xor_self]
    have hlt2 : d ^^^ ginv a < 2 ^ 8 := Nat.xor_lt_two_pow (n := 8) hd hlt
    exact xor_eq_zero_imp _ _ (gmult_eq_zero_aux a (d ^^^ ginv a) ha hlt2 h0 hx)

/-- C19, an instance: `0x53`, whose inverse is `0xCA`. -/
theorem gmult_no_zero_divisors_unique_inverse_witness :
    0x53 < 256 ∧ 0xCA < 256 ∧
      ((gmult 0x53 0xCA = 0 ↔ 0x53 = 0 ∨ 0xCA = 0) ∧
        (0x53 ≠ 0 →
          ∃ c, (c < 256 ∧ gmult 0x53 c = 1) ∧ ∀ d, d < 256 ∧ gmult 0x53 d = 1 → d = c)) :=
  ⟨by decide, by decide,
    gmult_no_zero_divisors_unique_inverse 0x53 0xCA (by decide) (by decide)⟩

/-- C20: for all bytes `a`, `b`, `c`, `gmult` is associative and distributes
over exclusive or. -/
theorem gmult_associative_and_distributive (a b c : Nat) (ha : a < 256) (hb : b < 256)
    (hc : c < 256) :
    gmult (gmult a b) c = gmult a (gmult b c) ∧
      gmult a (b ^^^ c) = gmult a b ^^^ gmult a c :=
  ⟨gmult_assoc_aux a b c ha hb hc, gmult_xor_right a b c⟩

/-- C20, an instance: `0x57`, `0x83` and `0x13`. -/
theorem gmult_associative_and_distributive_witness :
    0x57 < 256 ∧ 0x83 < 256 ∧ 0x13 < 256 ∧
      (gmult (gmult 0x57 0x83) 0x13 = gmult 0x57 (gmult 0x83 0x13) ∧
        gmult 0x57 (0x83 ^^^ 0x13) = gmult 0x57 0x83 ^^^ gmult 0x57 0x13) :=
  ⟨by decide, by decide, by decide,
    gmult_associative_and_distributive 0x57 0x83 0x13 (by decide) (by decide) (by decide)⟩
